import Mathlib

/-!
Verification of the cascade-delete, archive-assembly and faculty-ledger core
of the KithabBackendS3 notes backend.

The metadata store (MongoDB collections Regulation/Branch/Subject/Note/Faculty)
is modelled as lists of records; a mongoose session transaction is modelled as
a session view of the store: statements executed with `.session(session)` act
on the view, `commitTransaction` installs the view, `abortTransaction`
discards it.  S3 object deletions (`deleteFile`) act directly on the object
store and are recorded, together with every metadata record deletion, in an
event trace, so that temporal claims (ordering, before/after commit) can be
stated about runs.  A statement-counter oracle `failAt` injects a thrown
error at a chosen metadata statement, modelling a failing write inside the
transaction (the route's catch then aborts).
-/

namespace Kithab

/-- Identifiers (Mongo ObjectIds) are opaque unique handles; modelled as naturals. -/
abbrev OID := Nat

/-- Byte content of a stored S3 object. -/
abbrev Blob := List Nat

/-- Regulation record (Models/Regulation.js, fields used by the routes). -/
structure Regulation where
  id : OID
  name : String
  numberOfSemesters : Nat
deriving DecidableEq, Repr

/-- Branch record: references its Regulation. -/
structure Branch where
  id : OID
  name : String
  code : String
  regulation : OID
deriving DecidableEq, Repr

/-- Subject record: references its Branch. -/
structure Subject where
  id : OID
  name : String
  code : String
  branch : OID
  semester : String
deriving DecidableEq, Repr

/-- Note record (Models/Note.js). -/
structure Note where
  id : OID
  title : String
  regulation : OID
  subject : OID
  branch : OID
  semester : String
  fileKey : String
  uploadedBy : OID
  createdAt : Nat
deriving DecidableEq, Repr

/-- Faculty record, with the denormalized uploadedNotes ledger. -/
structure Faculty where
  id : OID
  name : String
  email : String
  employeeId : String
  designation : String
  password : String
  uploadedNotes : List OID
  createdAt : Nat
deriving DecidableEq, Repr

/-- The metadata store: the five collections. -/
@[ext]
structure DB where
  regulations : List Regulation
  branches : List Branch
  subjects : List Subject
  notes : List Note
  faculties : List Faculty
deriving DecidableEq, Repr

/-- Whole system state: metadata store plus the S3 object store. -/
@[ext]
structure St where
  db : DB
  blobs : List (String × Blob)
deriving DecidableEq, Repr

/-- Events recorded during a cascade-delete run. -/
inductive Ev where
  | delNote (id : OID)
  | delSubject (id : OID)
  | delBranch (id : OID)
  | delRegulation (id : OID)
  | blobDel (key : String)
  | commit
  | abort
deriving DecidableEq, Repr

/-- Outcome of a delete route. -/
inductive DelResult where
  | ok
  | notFound
  | storageError
deriving DecidableEq, Repr

/-- In-flight transaction state: session view of the metadata store, current
object store, event trace so far, and the metadata statement counter used by
the failure oracle. -/
@[ext]
structure Tx where
  sess : DB
  blobs : List (String × Blob)
  trace : List Ev
  cnt : Nat
deriving DecidableEq, Repr

/-- One call to the S3 delete helper (deleteFile / deleteS3Object): removes
the object with the given key.  S3 effects are immediate; they are not part
of the metadata transaction and are never rolled back. -/
def delBlob (k : String) (tx : Tx) : Tx :=
  { tx with
      blobs := tx.blobs.filter (fun kb => kb.1 != k)
      trace := tx.trace ++ [Ev.blobDel k] }

/-- The source's `for (const note of notes) await deleteFile(note.fileKey)` loops. -/
def delBlobs (ks : List String) (tx : Tx) : Tx :=
  ks.foldl (fun t k => delBlob k t) tx

/-- A metadata write statement executed with `.session(session)`: it acts on
the session view.  `failAt` injects a thrown error at the given statement
index; a throw leaves the statement without effect and the surrounding catch
aborts the transaction. -/
def mstmt (failAt : Option Nat) (f : DB → DB × List Ev) (tx : Tx) : Except Tx Tx :=
  if failAt = some tx.cnt then Except.error tx
  else
    Except.ok { sess := (f tx.sess).1, blobs := tx.blobs,
                trace := tx.trace ++ (f tx.sess).2, cnt := tx.cnt + 1 }

/-- Note.deleteMany with the given filter (one event per deleted record). -/
def noteDeleteMany (failAt : Option Nat) (p : Note → Bool) : Tx → Except Tx Tx :=
  mstmt failAt (fun db =>
    ({ db with notes := db.notes.filter (fun n => !(p n)) },
     (db.notes.filter p).map (fun n => Ev.delNote n.id)))

/-- Subject.deleteMany with the given filter. -/
def subjectDeleteMany (failAt : Option Nat) (p : Subject → Bool) : Tx → Except Tx Tx :=
  mstmt failAt (fun db =>
    ({ db with subjects := db.subjects.filter (fun s => !(p s)) },
     (db.subjects.filter p).map (fun s => Ev.delSubject s.id)))

/-- Branch.deleteMany with the given filter. -/
def branchDeleteMany (failAt : Option Nat) (p : Branch → Bool) : Tx → Except Tx Tx :=
  mstmt failAt (fun db =>
    ({ db with branches := db.branches.filter (fun b => !(p b)) },
     (db.branches.filter p).map (fun b => Ev.delBranch b.id)))

/-- Regulation.findByIdAndDelete(id). -/
def regulationDeleteById (failAt : Option Nat) (rid : OID) : Tx → Except Tx Tx :=
  mstmt failAt (fun db =>
    ({ db with regulations := db.regulations.filter (fun r => !(r.id == rid)) },
     [Ev.delRegulation rid]))

/-- Branch.findByIdAndDelete(id). -/
def branchDeleteById (failAt : Option Nat) (bid : OID) : Tx → Except Tx Tx :=
  mstmt failAt (fun db =>
    ({ db with branches := db.branches.filter (fun b => !(b.id == bid)) },
     [Ev.delBranch bid]))

/-- Subject.findByIdAndDelete(id). -/
def subjectDeleteById (failAt : Option Nat) (sid : OID) : Tx → Except Tx Tx :=
  mstmt failAt (fun db =>
    ({ db with subjects := db.subjects.filter (fun s => !(s.id == sid)) },
     [Ev.delSubject sid]))

/-- Inner loop of DELETE /admin/regulations/:id over the subjects of one
branch: fetch the subject's notes, delete each blob, then
Note.deleteMany({subject}). -/
def subjLoop (failAt : Option Nat) (ss : List Subject) (tx : Tx) : Except Tx Tx :=
  match ss with
  | [] => Except.ok tx
  | s :: rest => do
    let keys := (tx.sess.notes.filter (fun n => n.subject == s.id)).map (fun n => n.fileKey)
    let tx1 := delBlobs keys tx
    let tx2 ← noteDeleteMany failAt (fun n => n.subject == s.id) tx1
    subjLoop failAt rest tx2

/-- Loop of DELETE /admin/regulations/:id over the regulation's branches:
per branch, delete the branch's direct notes (blobs first), walk its
subjects, then Subject.deleteMany({branch}). -/
def branchLoop (failAt : Option Nat) (bs : List Branch) (tx : Tx) : Except Tx Tx :=
  match bs with
  | [] => Except.ok tx
  | b :: rest => do
    let keys := (tx.sess.notes.filter (fun n => n.branch == b.id)).map (fun n => n.fileKey)
    let tx1 := delBlobs keys tx
    let tx2 ← noteDeleteMany failAt (fun n => n.branch == b.id) tx1
    let tx3 ← subjLoop failAt (tx2.sess.subjects.filter (fun s => s.branch == b.id)) tx2
    let tx4 ← subjectDeleteMany failAt (fun s => s.branch == b.id) tx3
    branchLoop failAt rest tx4

/-- Body of DELETE /admin/regulations/:id after the root was found
(everything inside the try, up to but excluding commit). -/
def deleteRegulationBody (failAt : Option Nat) (rid : OID) (tx : Tx) : Except Tx Tx := do
  let keys := (tx.sess.notes.filter (fun n => n.regulation == rid)).map (fun n => n.fileKey)
  let tx1 := delBlobs keys tx
  let tx2 ← noteDeleteMany failAt (fun n => n.regulation == rid) tx1
  let tx3 ← branchLoop failAt (tx2.sess.branches.filter (fun b => b.regulation == rid)) tx2
  let tx4 ← branchDeleteMany failAt (fun b => b.regulation == rid) tx3
  regulationDeleteById failAt rid tx4

/-- DELETE /admin/regulations/:id.  Returns the route outcome, the final
system state, and the event trace of the run. -/
def deleteRegulation (failAt : Option Nat) (rid : OID) (st : St) : DelResult × St × List Ev :=
  match st.db.regulations.find? (fun r => r.id == rid) with
  | none => (DelResult.notFound, st, [])
  | some _ =>
    match deleteRegulationBody failAt rid ⟨st.db, st.blobs, [], 0⟩ with
    | Except.ok tx => (DelResult.ok, ⟨tx.sess, tx.blobs⟩, tx.trace ++ [Ev.commit])
    | Except.error tx => (DelResult.storageError, ⟨st.db, tx.blobs⟩, tx.trace ++ [Ev.abort])

/-- Body of DELETE /admin/branches/:id after the root was found. -/
def deleteBranchBody (failAt : Option Nat) (bid : OID) (tx : Tx) : Except Tx Tx := do
  let keys := (tx.sess.notes.filter (fun n => n.branch == bid)).map (fun n => n.fileKey)
  let tx1 := delBlobs keys tx
  let tx2 ← noteDeleteMany failAt (fun n => n.branch == bid) tx1
  let tx3 ← subjectDeleteMany failAt (fun s => s.branch == bid) tx2
  branchDeleteById failAt bid tx3

/-- DELETE /admin/branches/:id. -/
def deleteBranch (failAt : Option Nat) (bid : OID) (st : St) : DelResult × St × List Ev :=
  match st.db.branches.find? (fun b => b.id == bid) with
  | none => (DelResult.notFound, st, [])
  | some _ =>
    match deleteBranchBody failAt bid ⟨st.db, st.blobs, [], 0⟩ with
    | Except.ok tx => (DelResult.ok, ⟨tx.sess, tx.blobs⟩, tx.trace ++ [Ev.commit])
    | Except.error tx => (DelResult.storageError, ⟨st.db, tx.blobs⟩, tx.trace ++ [Ev.abort])

/-- Body of DELETE /admin/subjects/:id after the root was found. -/
def deleteSubjectBody (failAt : Option Nat) (sid : OID) (tx : Tx) : Except Tx Tx := do
  let keys := (tx.sess.notes.filter (fun n => n.subject == sid)).map (fun n => n.fileKey)
  let tx1 := delBlobs keys tx
  let tx2 ← noteDeleteMany failAt (fun n => n.subject == sid) tx1
  subjectDeleteById failAt sid tx2

/-- DELETE /admin/subjects/:id. -/
def deleteSubject (failAt : Option Nat) (sid : OID) (st : St) : DelResult × St × List Ev :=
  match st.db.subjects.find? (fun s => s.id == sid) with
  | none => (DelResult.notFound, st, [])
  | some _ =>
    match deleteSubjectBody failAt sid ⟨st.db, st.blobs, [], 0⟩ with
    | Except.ok tx => (DelResult.ok, ⟨tx.sess, tx.blobs⟩, tx.trace ++ [Ev.commit])
    | Except.error tx => (DelResult.storageError, ⟨st.db, tx.blobs⟩, tx.trace ++ [Ev.abort])

/-- DELETE /:id of the notes router: delete the blob if the note has a
fileKey, pull the note id from the owning faculty's uploadedNotes, delete the
note document. -/
def deleteNoteDirect (st : St) (nid : OID) : DelResult × St :=
  match st.db.notes.find? (fun n => n.id == nid) with
  | none => (DelResult.notFound, st)
  | some note =>
    let blobs :=
      if note.fileKey != "" then st.blobs.filter (fun kb => kb.1 != note.fileKey) else st.blobs
    let faculties := st.db.faculties.map (fun f =>
      if f.id == note.uploadedBy then
        { f with uploadedNotes := f.uploadedNotes.filter (fun i => i != note.id) }
      else f)
    let notes := st.db.notes.filter (fun n => n.id != note.id)
    (DelResult.ok, ⟨{ st.db with faculties := faculties, notes := notes }, blobs⟩)

/-- DELETE /admin/notes/:id: delete the blob, delete the note document.  The
faculty ledger is not touched by this route. -/
def adminDeleteNote (st : St) (nid : OID) : DelResult × St :=
  match st.db.notes.find? (fun n => n.id == nid) with
  | none => (DelResult.notFound, st)
  | some note =>
    let blobs := st.blobs.filter (fun kb => kb.1 != note.fileKey)
    let notes := st.db.notes.filter (fun n => n.id != note.id)
    (DelResult.ok, ⟨{ st.db with notes := notes }, blobs⟩)

/-- Outcome of POST /notes/download-zip. -/
inductive ZipResult where
  | emptySelection
  | notFound
  | storageError
  | ok (entries : List (String × Blob))
deriving DecidableEq, Repr

/-- Per-note staging step of the zip route: a note with a falsy fileKey is
skipped (null entry); otherwise the blob is fetched, a fetch failure
rejecting the whole Promise.all. -/
def collectFiles (fetch : String → Option Blob) : List Note → Except Unit (List (Option (String × Blob)))
  | [] => Except.ok []
  | n :: rest =>
    if n.fileKey = "" then do
      let fs ← collectFiles fetch rest
      Except.ok (none :: fs)
    else
      match fetch n.fileKey with
      | none => Except.error ()
      | some b => do
        let fs ← collectFiles fetch rest
        Except.ok (some (n.title ++ ".pdf", b) :: fs)

/-- JSZip zip.file(name, content): a second entry with the same name replaces
the first. -/
def zipAdd (es : List (String × Blob)) (name : String) (content : Blob) : List (String × Blob) :=
  if es.any (fun e => e.1 == name) then
    es.map (fun e => if e.1 == name then (name, content) else e)
  else es ++ [(name, content)]

/-- The filesData.forEach((f) => f && zip.file(f.name, ...)) assembly. -/
def zipBuild (fs : List (Option (String × Blob))) : List (String × Blob) :=
  fs.foldl (fun es f => match f with | none => es | some nb => zipAdd es nb.1 nb.2) []

/-- POST /notes/download-zip: reject an empty selection, resolve the ids in
one query (silently skipping ids that no longer exist), fail with notFound
when none resolve, then stage and assemble the archive. -/
def buildArchive (fetch : String → Option Blob) (db : DB) (noteIds : List OID) : ZipResult :=
  if noteIds.isEmpty then ZipResult.emptySelection
  else
    let notes := db.notes.filter (fun n => noteIds.contains n.id)
    if notes.isEmpty then ZipResult.notFound
    else
      match collectFiles fetch notes with
      | Except.error _ => ZipResult.storageError
      | Except.ok fs => ZipResult.ok (zipBuild fs)

/-- Faculty record as shaped for responses: the password field is removed
(.select("-password") / delete obj.password). -/
structure FacultyView where
  id : OID
  name : String
  email : String
  employeeId : String
  designation : String
  uploadedNotes : List OID
  createdAt : Nat
deriving DecidableEq, Repr

/-- Response shaping of a faculty record: every field except password. -/
def Faculty.view (f : Faculty) : FacultyView :=
  ⟨f.id, f.name, f.email, f.employeeId, f.designation, f.uploadedNotes, f.createdAt⟩

/-- A faculty record with its password wiped; two records are
password-indistinguishable when their scrubs coincide. -/
def Faculty.scrub (f : Faculty) : Faculty :=
  { f with password := "" }

/-- Stable insertion of a faculty into a list sorted by createdAt descending. -/
def insertDesc (f : Faculty) : List Faculty → List Faculty
  | [] => [f]
  | g :: gs => if g.createdAt < f.createdAt then f :: g :: gs else g :: insertDesc f gs

/-- The .sort({ createdAt: -1 }) of GET /admin/faculty (stable). -/
def sortByCreatedDesc (fs : List Faculty) : List Faculty :=
  fs.foldr insertDesc []

/-- GET /admin/faculty: all faculty, newest first, password excluded. -/
def listFaculty (db : DB) : List FacultyView :=
  (sortByCreatedDesc db.faculties).map Faculty.view

/-- Responses of the faculty create/update routes. -/
inductive FacultyResp where
  | badRequest (msg : String)
  | notFound
  | ok (v : FacultyView)
deriving DecidableEq, Repr

/-- Request body of POST /admin/faculty (an absent field arrives falsy,
modelled as the empty string). -/
structure CreateFacultyReq where
  name : String
  email : String
  password : String
  employeeId : String
  designation : String
deriving DecidableEq, Repr

/-- POST /admin/faculty: field presence checks, email and employeeId
uniqueness checks, bcrypt-hash the password (an abstract hash function),
save, respond with the saved record minus password. -/
def createFaculty (hash : String → String) (freshId : OID) (now : Nat)
    (db : DB) (r : CreateFacultyReq) : FacultyResp × DB :=
  if r.name = "" ∨ r.email = "" ∨ r.password = "" ∨ r.employeeId = "" ∨ r.designation = "" then
    (FacultyResp.badRequest "Required fields missing", db)
  else if db.faculties.any (fun f => f.email == r.email) then
    (FacultyResp.badRequest "Email already exists", db)
  else if db.faculties.any (fun f => f.employeeId == r.employeeId) then
    (FacultyResp.badRequest "Employee ID already exists", db)
  else
    let f : Faculty :=
      ⟨freshId, r.name, r.email, r.employeeId, r.designation, hash r.password, [], now⟩
    (FacultyResp.ok f.view, { db with faculties := db.faculties ++ [f] })

/-- Request body of PUT /admin/faculty/:id (a falsy field, modelled as the
empty string, leaves the stored value in place). -/
structure UpdateFacultyReq where
  name : String
  email : String
  designation : String
  password : String
  employeeId : String
deriving DecidableEq, Repr

/-- Final stage of PUT /admin/faculty/:id: name/designation/password updates,
save, respond with the updated record minus password. -/
def updateFacultySave (hash : String → String) (db : DB) (fid : OID)
    (r : UpdateFacultyReq) (f : Faculty) : FacultyResp × DB :=
  let f1 := if r.name ≠ "" then { f with name := r.name } else f
  let f2 := if r.designation ≠ "" then { f1 with designation := r.designation } else f1
  let f3 := if r.password ≠ "" then { f2 with password := hash r.password } else f2
  (FacultyResp.ok f3.view,
   { db with faculties := db.faculties.map (fun g => if g.id == fid then f3 else g) })

/-- EmployeeId stage of PUT /admin/faculty/:id. -/
def updateFacultyEmp (hash : String → String) (db : DB) (fid : OID)
    (r : UpdateFacultyReq) (f : Faculty) : FacultyResp × DB :=
  if r.employeeId ≠ "" ∧ r.employeeId ≠ f.employeeId then
    if db.faculties.any (fun g => g.employeeId == r.employeeId && g.id != fid) then
      (FacultyResp.badRequest "Employee ID already exists", db)
    else updateFacultySave hash db fid r { f with employeeId := r.employeeId }
  else updateFacultySave hash db fid r f

/-- PUT /admin/faculty/:id: load, email uniqueness check and update,
employeeId uniqueness check and update, then the remaining field updates. -/
def updateFaculty (hash : String → String) (db : DB) (fid : OID)
    (r : UpdateFacultyReq) : FacultyResp × DB :=
  match db.faculties.find? (fun f => f.id == fid) with
  | none => (FacultyResp.notFound, db)
  | some f =>
    if r.email ≠ "" ∧ r.email ≠ f.email then
      if db.faculties.any (fun g => g.email == r.email && g.id != fid) then
        (FacultyResp.badRequest "Email already exists", db)
      else updateFacultyEmp hash db fid r { f with email := r.email }
    else updateFacultyEmp hash db fid r f

/-- Scans a trace for the claim that blob deletions happen only after the
metadata commit: true iff no blobDel event occurs before a commit event (in
particular, if the trace has no commit it must have no blobDel at all). -/
def blobOnlyAfterCommit : List Ev → Bool
  | [] => true
  | Ev.commit :: _ => true
  | Ev.blobDel _ :: _ => false
  | _ :: tr => blobOnlyAfterCommit tr

/-- Phase of a metadata deletion event in the claimed strict order
notes, then subjects, then branches, then the regulation root. -/
def phaseOf : Ev → Option Nat
  | Ev.delNote _ => some 1
  | Ev.delSubject _ => some 2
  | Ev.delBranch _ => some 3
  | Ev.delRegulation _ => some 4
  | _ => none

/-- True iff the phases of the metadata deletion events are nondecreasing
along the trace. -/
def phasesOkAux : Nat → List Ev → Bool
  | _, [] => true
  | p, e :: tr =>
    match phaseOf e with
    | none => phasesOkAux p tr
    | some q => decide (p ≤ q) && phasesOkAux q tr

/-- The strict phase order of claim C4 on a whole trace. -/
def phasesOk (tr : List Ev) : Bool :=
  phasesOkAux 0 tr

/-- Scans a trace against the descendant-note ids ns and the descendant
subject ids ss of the cascade: a subject deletion is allowed only once every
descendant note has been deleted, and a branch deletion only once every
descendant note and subject has been deleted. -/
def ordScan : List Ev → List OID → List OID → Bool
  | [], _, _ => true
  | Ev.delNote i :: tr, ns, ss => ordScan tr (ns.filter (fun j => j != i)) ss
  | Ev.delSubject i :: tr, ns, ss => ns.isEmpty && ordScan tr ns (ss.filter (fun j => j != i))
  | Ev.delBranch _ :: tr, ns, ss => ns.isEmpty && ss.isEmpty && ordScan tr ns ss
  | _ :: tr, ns, ss => ordScan tr ns ss

/-- A note references regulation rid directly or transitively: by its
regulation field, through a branch of rid, or through a subject lying in a
branch of rid. -/
def noteUnderRegB (db : DB) (rid : OID) (n : Note) : Bool :=
  n.regulation == rid ||
  db.branches.any (fun b => b.regulation == rid && n.branch == b.id) ||
  db.subjects.any (fun s => n.subject == s.id &&
    db.branches.any (fun b => b.regulation == rid && s.branch == b.id))

/-- A subject references regulation rid transitively through its branch. -/
def subjUnderRegB (db : DB) (rid : OID) (s : Subject) : Bool :=
  db.branches.any (fun b => b.regulation == rid && s.branch == b.id)

/-- Ids of the notes of the cascade rooted at regulation rid. -/
def regDescNoteIds (db : DB) (rid : OID) : List OID :=
  (db.notes.filter (noteUnderRegB db rid)).map (fun n => n.id)

/-- Ids of the subjects of the cascade rooted at regulation rid. -/
def regDescSubjectIds (db : DB) (rid : OID) : List OID :=
  (db.subjects.filter (subjUnderRegB db rid)).map (fun s => s.id)

/-- A note references branch bid directly or through one of its subjects. -/
def noteUnderBranchB (db : DB) (bid : OID) (n : Note) : Bool :=
  n.branch == bid || db.subjects.any (fun s => s.branch == bid && n.subject == s.id)

/-- Ids of the notes of the cascade rooted at branch bid. -/
def branchDescNoteIds (db : DB) (bid : OID) : List OID :=
  (db.notes.filter (noteUnderBranchB db bid)).map (fun n => n.id)

/-- Ids of the subjects of the cascade rooted at branch bid. -/
def branchDescSubjectIds (db : DB) (bid : OID) : List OID :=
  (db.subjects.filter (fun s => s.branch == bid)).map (fun s => s.id)

/-- Ids of the notes of the cascade rooted at subject sid. -/
def subjDescNoteIds (db : DB) (sid : OID) : List OID :=
  (db.notes.filter (fun n => n.subject == sid)).map (fun n => n.id)

/-- Claim C4 instantiated on a regulation cascade run: when the run
succeeds, its trace deletes in the strict order notes, subjects, branches,
root, and never deletes a subject (resp. branch) while a descendant note
(resp. note or subject) remains. -/
def c4RegOk (failAt : Option Nat) (rid : OID) (st : St) : Bool :=
  match deleteRegulation failAt rid st with
  | (DelResult.ok, _, tr) =>
    phasesOk tr && ordScan tr (regDescNoteIds st.db rid) (regDescSubjectIds st.db rid)
  | _ => true

/-- Claim C4 instantiated on a branch cascade run. -/
def c4BranchOk (failAt : Option Nat) (bid : OID) (st : St) : Bool :=
  match deleteBranch failAt bid st with
  | (DelResult.ok, _, tr) =>
    phasesOk tr && ordScan tr (branchDescNoteIds st.db bid) (branchDescSubjectIds st.db bid)
  | _ => true

/-- Claim C4 instantiated on a subject cascade run. -/
def c4SubjOk (failAt : Option Nat) (sid : OID) (st : St) : Bool :=
  match deleteSubject failAt sid st with
  | (DelResult.ok, _, tr) => phasesOk tr && ordScan tr (subjDescNoteIds st.db sid) []
  | _ => true

/-- The internal-consistency precondition of the data model: a Note's
subject's branch equals the Note's branch, and a Note's branch's regulation
equals the Note's regulation. -/
def consistentDB (db : DB) : Prop :=
  (∀ n ∈ db.notes, ∀ s ∈ db.subjects, n.subject = s.id → n.branch = s.branch) ∧
  (∀ n ∈ db.notes, ∀ b ∈ db.branches, n.branch = b.id → n.regulation = b.regulation)

/-- Every id in every faculty's uploadedNotes ledger references an existing
note. -/
def noDanglingB (db : DB) : Bool :=
  db.faculties.all (fun f => f.uploadedNotes.all (fun i => db.notes.any (fun n => n.id == i)))

/-- The ledger invariant of the data model: every id in a faculty's
uploadedNotes references an existing note owned by that faculty. -/
def ledgerInvB (db : DB) : Bool :=
  db.faculties.all (fun f => f.uploadedNotes.all (fun i =>
    db.notes.any (fun n => n.id == i && n.uploadedBy == f.id)))

/-- Example note of the running consistent store. -/
def exNote : Note := ⟨4, "T", 1, 3, 2, "1", "k1", 7, 0⟩

/-- A small consistent store: one regulation, one branch, one subject, one
note with blob key k1, one faculty owning the note. -/
def exSt : St :=
  ⟨⟨[⟨1, "R", 8⟩], [⟨2, "B", "CS", 1⟩], [⟨3, "S", "CS1", 2, "1"⟩], [exNote],
    [⟨7, "F", "f@x", "E1", "Prof", "pw", [4], 0⟩]⟩, [("k1", [1, 2])]⟩

/-- An inconsistent store: note 6 sits in branch 3 of regulation 1 but its
regulation field is 9, so the first Note.deleteMany of the regulation
cascade misses it while subject 4 of branch 2 is deleted first. -/
def cex4St : St :=
  ⟨⟨[⟨1, "R", 8⟩], [⟨2, "B1", "c", 1⟩, ⟨3, "B2", "c", 1⟩],
    [⟨4, "S1", "c", 2, "1"⟩, ⟨5, "S2", "c", 3, "1"⟩],
    [⟨6, "N", 9, 5, 3, "1", "k", 7, 0⟩], []⟩, [("k", [0])]⟩

/-- A fetch oracle that always succeeds. -/
def goodFetch : String → Option Blob :=
  fun _ => some [7]

/-- A fetch oracle that fails on key k1. -/
def badFetch : String → Option Blob :=
  fun k => if k == "k1" then none else some [7]

/-- Two faculty stores identical except for the stored password value. -/
def exDbA : DB :=
  ⟨[], [], [], [], [⟨7, "F", "f@x", "E1", "Prof", "hashA", [4], 0⟩]⟩

/-- Second of the password-twin stores. -/
def exDbB : DB :=
  ⟨[], [], [], [], [⟨7, "F", "f@x", "E1", "Prof", "hashB", [4], 0⟩]⟩

theorem delBlobs_sess : ∀ (ks : List String) (tx : Tx), (delBlobs ks tx).sess = tx.sess := by
  intro ks
  induction ks with
  | nil => intro tx; rfl
  | cons k ks ih =>
    intro tx
    rw [show delBlobs (k :: ks) tx = delBlobs ks (delBlob k tx) from rfl, ih]
    rfl

theorem delBlobs_cnt : ∀ (ks : List String) (tx : Tx), (delBlobs ks tx).cnt = tx.cnt := by
  intro ks
  induction ks with
  | nil => intro tx; rfl
  | cons k ks ih =>
    intro tx
    rw [show delBlobs (k :: ks) tx = delBlobs ks (delBlob k tx) from rfl, ih]
    rfl

theorem delBlobs_trace : ∀ (ks : List String) (tx : Tx),
    (delBlobs ks tx).trace = tx.trace ++ ks.map Ev.blobDel := by
  intro ks
  induction ks with
  | nil => intro tx; simp [delBlobs]
  | cons k ks ih =>
    intro tx
    rw [show delBlobs (k :: ks) tx = delBlobs ks (delBlob k tx) from rfl, ih]
    simp [delBlob, List.append_assoc]

theorem mstmt_fail (c : Nat) (f : DB → DB × List Ev) (tx : Tx) (h : tx.cnt = c) :
    mstmt (some c) f tx = Except.error tx := by
  simp [mstmt, h]

theorem deleteRegulationBody_failAt_zero (rid : OID) (tx : Tx) (h : tx.cnt = 0) :
    deleteRegulationBody (some 0) rid tx =
      Except.error (delBlobs
        ((tx.sess.notes.filter (fun n => n.regulation == rid)).map (fun n => n.fileKey)) tx) := by
  have h1 : (delBlobs
      ((tx.sess.notes.filter (fun n => n.regulation == rid)).map (fun n => n.fileKey)) tx).cnt = 0 := by
    rw [delBlobs_cnt, h]
  simp only [deleteRegulationBody, noteDeleteMany]
  rw [mstmt_fail 0 _ _ h1]
  rfl

theorem deleteBranchBody_failAt_zero (bid : OID) (tx : Tx) (h : tx.cnt = 0) :
    deleteBranchBody (some 0) bid tx =
      Except.error (delBlobs
        ((tx.sess.notes.filter (fun n => n.branch == bid)).map (fun n => n.fileKey)) tx) := by
  have h1 : (delBlobs
      ((tx.sess.notes.filter (fun n => n.branch == bid)).map (fun n => n.fileKey)) tx).cnt = 0 := by
    rw [delBlobs_cnt, h]
  simp only [deleteBranchBody, noteDeleteMany]
  rw [mstmt_fail 0 _ _ h1]
  rfl

theorem deleteSubjectBody_failAt_zero (sid : OID) (tx : Tx) (h : tx.cnt = 0) :
    deleteSubjectBody (some 0) sid tx =
      Except.error (delBlobs
        ((tx.sess.notes.filter (fun n => n.subject == sid)).map (fun n => n.fileKey)) tx) := by
  have h1 : (delBlobs
      ((tx.sess.notes.filter (fun n => n.subject == sid)).map (fun n => n.fileKey)) tx).cnt = 0 := by
    rw [delBlobs_cnt, h]
  simp only [deleteSubjectBody, noteDeleteMany]
  rw [mstmt_fail 0 _ _ h1]
  rfl

/-- C1: the claim that blob deletions happen only after the metadata commit
is false on the code: on the concrete store exSt the (successful) regulation
cascade issues the blob deletion of key k1 before the commit event. -/
theorem c1_blob_before_commit_cex :
    blobOnlyAfterCommit (deleteRegulation none 1 exSt).2.2 = false := by decide

/-- C1 (amended): in every cascade delete the collected blob deletions are
issued inside the transaction, before commit: with a failure injected at the
first metadata statement, each route has already issued the blob deletions
of its first collection stage although the transaction aborts and never
commits, while the metadata store is left unchanged. -/
theorem c1_blobs_deleted_before_commit (st : St) (rid : OID) :
    ((st.db.regulations.find? (fun r => r.id == rid)).isSome →
      ∃ st' tr, deleteRegulation (some 0) rid st = (DelResult.storageError, st', tr) ∧
        st'.db = st.db ∧ Ev.commit ∉ tr ∧
        ∀ n ∈ st.db.notes, n.regulation = rid → Ev.blobDel n.fileKey ∈ tr) ∧
    ((st.db.branches.find? (fun b => b.id == rid)).isSome →
      ∃ st' tr, deleteBranch (some 0) rid st = (DelResult.storageError, st', tr) ∧
        st'.db = st.db ∧ Ev.commit ∉ tr ∧
        ∀ n ∈ st.db.notes, n.branch = rid → Ev.blobDel n.fileKey ∈ tr) ∧
    ((st.db.subjects.find? (fun s => s.id == rid)).isSome →
      ∃ st' tr, deleteSubject (some 0) rid st = (DelResult.storageError, st', tr) ∧
        st'.db = st.db ∧ Ev.commit ∉ tr ∧
        ∀ n ∈ st.db.notes, n.subject = rid → Ev.blobDel n.fileKey ∈ tr) := by
  refine ⟨?_, ?_, ?_⟩
  · intro hs
    obtain ⟨r, hr⟩ := Option.isSome_iff_exists.mp hs
    have heq : deleteRegulation (some 0) rid st =
        (DelResult.storageError,
         ⟨st.db, (delBlobs ((st.db.notes.filter (fun n => n.regulation == rid)).map
            (fun n => n.fileKey)) ⟨st.db, st.blobs, [], 0⟩).blobs⟩,
         (delBlobs ((st.db.notes.filter (fun n => n.regulation == rid)).map
            (fun n => n.fileKey)) ⟨st.db, st.blobs, [], 0⟩).trace ++ [Ev.abort]) := by
      simp only [deleteRegulation, hr]
      rw [deleteRegulationBody_failAt_zero rid _ rfl]
    refine ⟨_, _, heq, rfl, ?_, ?_⟩
    · rw [delBlobs_trace]
      simp
    · intro n hn hreg
      rw [delBlobs_trace]
      apply List.mem_append_left
      apply List.mem_append_right
      exact List.mem_map_of_mem _ (List.mem_map_of_mem _
        (List.mem_filter.mpr ⟨hn, by simp [hreg]⟩))
  · intro hs
    obtain ⟨b, hb⟩ := Option.isSome_iff_exists.mp hs
    have heq : deleteBranch (some 0) rid st =
        (DelResult.storageError,
         ⟨st.db, (delBlobs ((st.db.notes.filter (fun n => n.branch == rid)).map
            (fun n => n.fileKey)) ⟨st.db, st.blobs, [], 0⟩).blobs⟩,
         (delBlobs ((st.db.notes.filter (fun n => n.branch == rid)).map
            (fun n => n.fileKey)) ⟨st.db, st.blobs, [], 0⟩).trace ++ [Ev.abort]) := by
      simp only [deleteBranch, hb]
      rw [deleteBranchBody_failAt_zero rid _ rfl]
    refine ⟨_, _, heq, rfl, ?_, ?_⟩
    · rw [delBlobs_trace]
      simp
    · intro n hn hbr
      rw [delBlobs_trace]
      apply List.mem_append_left
      apply List.mem_append_right
      exact List.mem_map_of_mem _ (List.mem_map_of_mem _
        (List.mem_filter.mpr ⟨hn, by simp [hbr]⟩))
  · intro hs
    obtain ⟨s, hsub⟩ := Option.isSome_iff_exists.mp hs
    have heq : deleteSubject (some 0) rid st =
        (DelResult.storageError,
         ⟨st.db, (delBlobs ((st.db.notes.filter (fun n => n.subject == rid)).map
            (fun n => n.fileKey)) ⟨st.db, st.blobs, [], 0⟩).blobs⟩,
         (delBlobs ((st.db.notes.filter (fun n => n.subject == rid)).map
            (fun n => n.fileKey)) ⟨st.db, st.blobs, [], 0⟩).trace ++ [Ev.abort]) := by
      simp only [deleteSubject, hsub]
      rw [deleteSubjectBody_failAt_zero rid _ rfl]
    refine ⟨_, _, heq, rfl, ?_, ?_⟩
    · rw [delBlobs_trace]
      simp
    · intro n hn hsu
      rw [delBlobs_trace]
      apply List.mem_append_left
      apply List.mem_append_right
      exact List.mem_map_of_mem _ (List.mem_map_of_mem _
        (List.mem_filter.mpr ⟨hn, by simp [hsu]⟩))

theorem c1_witness :
    ∃ st' tr, deleteRegulation (some 0) 1 exSt = (DelResult.storageError, st', tr) ∧
      st'.db = exSt.db ∧ Ev.commit ∉ tr ∧
      ∀ n ∈ exSt.db.notes, n.regulation = 1 → Ev.blobDel n.fileKey ∈ tr :=
  (c1_blobs_deleted_before_commit exSt 1).1 (by decide)

/-- C2: a cascade delete whose metadata transaction fails (storageError
outcome) aborts in its entirety: the metadata store after the call equals
the metadata store before the call, on all three routes. -/
theorem c2_abort_preserves_metadata (st : St) (rid : OID) (failAt : Option Nat)
    (st' : St) (tr : List Ev) :
    (deleteRegulation failAt rid st = (DelResult.storageError, st', tr) → st'.db = st.db) ∧
    (deleteBranch failAt rid st = (DelResult.storageError, st', tr) → st'.db = st.db) ∧
    (deleteSubject failAt rid st = (DelResult.storageError, st', tr) → st'.db = st.db) := by
  refine ⟨?_, ?_, ?_⟩ <;> intro h
  · unfold deleteRegulation at h
    cases hf : st.db.regulations.find? (fun r => r.id == rid) with
    | none =>
      rw [hf] at h
      exact DelResult.noConfusion (congrArg Prod.fst h)
    | some r =>
      rw [hf] at h
      cases hb : deleteRegulationBody failAt rid ⟨st.db, st.blobs, [], 0⟩ with
      | ok tx =>
        rw [hb] at h
        exact DelResult.noConfusion (congrArg Prod.fst h)
      | error tx =>
        rw [hb] at h
        simp only [Prod.mk.injEq] at h
        rw [← h.2.1]
  · unfold deleteBranch at h
    cases hf : st.db.branches.find? (fun b => b.id == rid) with
    | none =>
      rw [hf] at h
      exact DelResult.noConfusion (congrArg Prod.fst h)
    | some b =>
      rw [hf] at h
      cases hb : deleteBranchBody failAt rid ⟨st.db, st.blobs, [], 0⟩ with
      | ok tx =>
        rw [hb] at h
        exact DelResult.noConfusion (congrArg Prod.fst h)
      | error tx =>
        rw [hb] at h
        simp only [Prod.mk.injEq] at h
        rw [← h.2.1]
  · unfold deleteSubject at h
    cases hf : st.db.subjects.find? (fun s => s.id == rid) with
    | none =>
      rw [hf] at h
      exact DelResult.noConfusion (congrArg Prod.fst h)
    | some s =>
      rw [hf] at h
      cases hb : deleteSubjectBody failAt rid ⟨st.db, st.blobs, [], 0⟩ with
      | ok tx =>
        rw [hb] at h
        exact DelResult.noConfusion (congrArg Prod.fst h)
      | error tx =>
        rw [hb] at h
        simp only [Prod.mk.injEq] at h
        rw [← h.2.1]

theorem c2_witness :
    ((deleteRegulation (some 0) 1 exSt).2.1).db = exSt.db :=
  (c2_abort_preserves_metadata exSt 1 (some 0)
    (deleteRegulation (some 0) 1 exSt).2.1 (deleteRegulation (some 0) 1 exSt).2.2).1 (by decide)

theorem except_bind_ok {α β γ : Type} (x : Except α β) (k : β → Except α γ) (c : γ)
    (h : x >>= k = Except.ok c) : ∃ b, x = Except.ok b ∧ k b = Except.ok c := by
  cases x with
  | error e => exact absurd h (by simp [Bind.bind, Except.bind])
  | ok b => exact ⟨b, rfl, by simpa [Bind.bind, Except.bind] using h⟩

theorem mstmt_ok_shape (failAt : Option Nat) (f : DB → DB × List Ev) (tx tx' : Tx)
    (h : mstmt failAt f tx = Except.ok tx') :
    tx' = { sess := (f tx.sess).1, blobs := tx.blobs,
            trace := tx.trace ++ (f tx.sess).2, cnt := tx.cnt + 1 } := by
  unfold mstmt at h
  split at h
  · exact Except.noConfusion h
  · injection h with h
    exact h.symm

theorem noteDeleteMany_ok (failAt : Option Nat) (p : Note → Bool) (tx tx' : Tx)
    (h : noteDeleteMany failAt p tx = Except.ok tx') :
    tx'.sess.notes = tx.sess.notes.filter (fun n => !(p n)) ∧
    tx'.sess.regulations = tx.sess.regulations ∧
    tx'.sess.branches = tx.sess.branches ∧
    tx'.sess.subjects = tx.sess.subjects ∧
    tx'.sess.faculties = tx.sess.faculties ∧
    tx'.blobs = tx.blobs ∧
    tx'.trace = tx.trace ++ (tx.sess.notes.filter p).map (fun n => Ev.delNote n.id) := by
  unfold noteDeleteMany at h
  rw [mstmt_ok_shape _ _ _ _ h]
  exact ⟨rfl, rfl, rfl, rfl, rfl, rfl, rfl⟩

theorem subjectDeleteMany_ok (failAt : Option Nat) (p : Subject → Bool) (tx tx' : Tx)
    (h : subjectDeleteMany failAt p tx = Except.ok tx') :
    tx'.sess.subjects = tx.sess.subjects.filter (fun s => !(p s)) ∧
    tx'.sess.regulations = tx.sess.regulations ∧
    tx'.sess.branches = tx.sess.branches ∧
    tx'.sess.notes = tx.sess.notes ∧
    tx'.sess.faculties = tx.sess.faculties ∧
    tx'.blobs = tx.blobs ∧
    tx'.trace = tx.trace ++ (tx.sess.subjects.filter p).map (fun s => Ev.delSubject s.id) := by
  unfold subjectDeleteMany at h
  rw [mstmt_ok_shape _ _ _ _ h]
  exact ⟨rfl, rfl, rfl, rfl, rfl, rfl, rfl⟩

theorem branchDeleteMany_ok (failAt : Option Nat) (p : Branch → Bool) (tx tx' : Tx)
    (h : branchDeleteMany failAt p tx = Except.ok tx') :
    tx'.sess.branches = tx.sess.branches.filter (fun b => !(p b)) ∧
    tx'.sess.regulations = tx.sess.regulations ∧
    tx'.sess.subjects = tx.sess.subjects ∧
    tx'.sess.notes = tx.sess.notes ∧
    tx'.sess.faculties = tx.sess.faculties ∧
    tx'.blobs = tx.blobs ∧
    tx'.trace = tx.trace ++ (tx.sess.branches.filter p).map (fun b => Ev.delBranch b.id) := by
  unfold branchDeleteMany at h
  rw [mstmt_ok_shape _ _ _ _ h]
  exact ⟨rfl, rfl, rfl, rfl, rfl, rfl, rfl⟩

theorem regulationDeleteById_ok (failAt : Option Nat) (rid : OID) (tx tx' : Tx)
    (h : regulationDeleteById failAt rid tx = Except.ok tx') :
    tx'.sess.regulations = tx.sess.regulations.filter (fun r => !(r.id == rid)) ∧
    tx'.sess.branches = tx.sess.branches ∧
    tx'.sess.subjects = tx.sess.subjects ∧
    tx'.sess.notes = tx.sess.notes ∧
    tx'.sess.faculties = tx.sess.faculties ∧
    tx'.blobs = tx.blobs ∧
    tx'.trace = tx.trace ++ [Ev.delRegulation rid] := by
  unfold regulationDeleteById at h
  rw [mstmt_ok_shape _ _ _ _ h]
  exact ⟨rfl, rfl, rfl, rfl, rfl, rfl, rfl⟩

theorem branchDeleteById_ok (failAt : Option Nat) (bid : OID) (tx tx' : Tx)
    (h : branchDeleteById failAt bid tx = Except.ok tx') :
    tx'.sess.branches = tx.sess.branches.filter (fun b => !(b.id == bid)) ∧
    tx'.sess.regulations = tx.sess.regulations ∧
    tx'.sess.subjects = tx.sess.subjects ∧
    tx'.sess.notes = tx.sess.notes ∧
    tx'.sess.faculties = tx.sess.faculties ∧
    tx'.blobs = tx.blobs ∧
    tx'.trace = tx.trace ++ [Ev.delBranch bid] := by
  unfold branchDeleteById at h
  rw [mstmt_ok_shape _ _ _ _ h]
  exact ⟨rfl, rfl, rfl, rfl, rfl, rfl, rfl⟩

theorem subjectDeleteById_ok (failAt : Option Nat) (sid : OID) (tx tx' : Tx)
    (h : subjectDeleteById failAt sid tx = Except.ok tx') :
    tx'.sess.subjects = tx.sess.subjects.filter (fun s => !(s.id == sid)) ∧
    tx'.sess.regulations = tx.sess.regulations ∧
    tx'.sess.branches = tx.sess.branches ∧
    tx'.sess.notes = tx.sess.notes ∧
    tx'.sess.faculties = tx.sess.faculties ∧
    tx'.blobs = tx.blobs ∧
    tx'.trace = tx.trace ++ [Ev.delSubject sid] := by
  unfold subjectDeleteById at h
  rw [mstmt_ok_shape _ _ _ _ h]
  exact ⟨rfl, rfl, rfl, rfl, rfl, rfl, rfl⟩

theorem subjLoop_ok_pres : ∀ (ss : List Subject) (failAt : Option Nat) (tx tx' : Tx),
    subjLoop failAt ss tx = Except.ok tx' →
    tx'.sess.regulations = tx.sess.regulations ∧
    tx'.sess.branches = tx.sess.branches ∧
    tx'.sess.subjects = tx.sess.subjects ∧
    tx'.sess.faculties = tx.sess.faculties := by
  intro ss
  induction ss with
  | nil =>
    intro failAt tx tx' h
    injection h with h
    rw [h]
    exact ⟨rfl, rfl, rfl, rfl⟩
  | cons s rest ih =>
    intro failAt tx tx' h
    simp only [subjLoop] at h
    obtain ⟨tx2, h2, hrest⟩ := except_bind_ok _ _ _ h
    obtain ⟨-, hr, hb, hs, hf, -, -⟩ := noteDeleteMany_ok _ _ _ _ h2
    obtain ⟨ihr, ihb, ihs, ihf⟩ := ih failAt tx2 tx' hrest
    rw [delBlobs_sess] at hr hb hs hf
    exact ⟨ihr.trans hr, ihb.trans hb, ihs.trans hs, ihf.trans hf⟩

theorem branchLoop_ok_pres : ∀ (bs : List Branch) (failAt : Option Nat) (tx tx' : Tx),
    branchLoop failAt bs tx = Except.ok tx' →
    tx'.sess.regulations = tx.sess.regulations ∧
    tx'.sess.branches = tx.sess.branches ∧
    tx'.sess.faculties = tx.sess.faculties := by
  intro bs
  induction bs with
  | nil =>
    intro failAt tx tx' h
    injection h with h
    rw [h]
    exact ⟨rfl, rfl, rfl⟩
  | cons b rest ih =>
    intro failAt tx tx' h
    simp only [branchLoop] at h
    obtain ⟨tx2, h2, h'⟩ := except_bind_ok _ _ _ h
    obtain ⟨tx3, h3, h''⟩ := except_bind_ok _ _ _ h'
    obtain ⟨tx4, h4, hrest⟩ := except_bind_ok _ _ _ h''
    obtain ⟨-, hr2, hb2, -, hf2, -, -⟩ := noteDeleteMany_ok _ _ _ _ h2
    obtain ⟨hr3, hb3, -, hf3⟩ := subjLoop_ok_pres _ _ _ _ h3
    obtain ⟨-, hr4, hb4, -, hf4, -, -⟩ := subjectDeleteMany_ok _ _ _ _ h4
    obtain ⟨ihr, ihb, ihf⟩ := ih failAt tx4 tx' hrest
    rw [delBlobs_sess] at hr2 hb2 hf2
    exact ⟨ihr.trans (hr4.trans (hr3.trans hr2)),
           ihb.trans (hb4.trans (hb3.trans hb2)),
           ihf.trans (hf4.trans (hf3.trans hf2))⟩

theorem find?_filter_not {α : Type} (p : α → Bool) :
    ∀ (l : List α), (l.filter (fun a => !(p a))).find? p = none := by
  intro l
  induction l with
  | nil => rfl
  | cons a l ih =>
    cases h : p a with
    | true => simp [List.filter_cons, h, ih]
    | false => simp [List.filter_cons, h, List.find?_cons, ih]

theorem deleteRegulationBody_ok (failAt : Option Nat) (rid : OID) (tx tx' : Tx)
    (h : deleteRegulationBody failAt rid tx = Except.ok tx') :
    tx'.sess.regulations = tx.sess.regulations.filter (fun r => !(r.id == rid)) ∧
    tx'.sess.faculties = tx.sess.faculties := by
  simp only [deleteRegulationBody] at h
  obtain ⟨tx2, h2, h'⟩ := except_bind_ok _ _ _ h
  obtain ⟨tx3, h3, h''⟩ := except_bind_ok _ _ _ h'
  obtain ⟨tx4, h4, h5⟩ := except_bind_ok _ _ _ h''
  obtain ⟨-, hr2, -, -, hf2, -, -⟩ := noteDeleteMany_ok _ _ _ _ h2
  obtain ⟨hr3, -, hf3⟩ := branchLoop_ok_pres _ _ _ _ h3
  obtain ⟨-, hr4, -, -, hf4, -, -⟩ := branchDeleteMany_ok _ _ _ _ h4
  obtain ⟨hr5, -, -, -, hf5, -, -⟩ := regulationDeleteById_ok _ _ _ _ h5
  rw [delBlobs_sess] at hr2 hf2
  refine ⟨?_, hf5.trans (hf4.trans (hf3.trans hf2))⟩
  rw [hr5, hr4, hr3, hr2]

/-- C9: a cascade delete on an absent root id returns notFound with the
state unchanged and an empty trace (no metadata or blob effect); a second
call on the root id of a previously successful cascade is such a call. -/
theorem c9_notfound_no_side_effects (st : St) (rid : OID) (failAt failAt2 : Option Nat) :
    (st.db.regulations.find? (fun r => r.id == rid) = none →
      deleteRegulation failAt rid st = (DelResult.notFound, st, [])) ∧
    (st.db.branches.find? (fun b => b.id == rid) = none →
      deleteBranch failAt rid st = (DelResult.notFound, st, [])) ∧
    (st.db.subjects.find? (fun s => s.id == rid) = none →
      deleteSubject failAt rid st = (DelResult.notFound, st, [])) ∧
    (∀ st' tr, deleteRegulation failAt rid st = (DelResult.ok, st', tr) →
      deleteRegulation failAt2 rid st' = (DelResult.notFound, st', [])) ∧
    (∀ st' tr, deleteBranch failAt rid st = (DelResult.ok, st', tr) →
      deleteBranch failAt2 rid st' = (DelResult.notFound, st', [])) ∧
    (∀ st' tr, deleteSubject failAt rid st = (DelResult.ok, st', tr) →
      deleteSubject failAt2 rid st' = (DelResult.notFound, st', [])) := by
  have hreg : ∀ (st0 : St), st0.db.regulations.find? (fun r => r.id == rid) = none →
      deleteRegulation failAt2 rid st0 = (DelResult.notFound, st0, []) := by
    intro st0 h
    simp only [deleteRegulation, h]
  have hbr : ∀ (st0 : St), st0.db.branches.find? (fun b => b.id == rid) = none →
      deleteBranch failAt2 rid st0 = (DelResult.notFound, st0, []) := by
    intro st0 h
    simp only [deleteBranch, h]
  have hsu : ∀ (st0 : St), st0.db.subjects.find? (fun s => s.id == rid) = none →
      deleteSubject failAt2 rid st0 = (DelResult.notFound, st0, []) := by
    intro st0 h
    simp only [deleteSubject, h]
  refine ⟨?_, ?_, ?_, ?_, ?_, ?_⟩
  · intro h
    simp only [deleteRegulation, h]
  · intro h
    simp only [deleteBranch, h]
  · intro h
    simp only [deleteSubject, h]
  · intro st' tr h
    apply hreg
    unfold deleteRegulation at h
    cases hf : st.db.regulations.find? (fun r => r.id == rid) with
    | none =>
      rw [hf] at h
      exact DelResult.noConfusion (congrArg Prod.fst h)
    | some r =>
      rw [hf] at h
      cases hb : deleteRegulationBody failAt rid ⟨st.db, st.blobs, [], 0⟩ with
      | error tx =>
        rw [hb] at h
        exact DelResult.noConfusion (congrArg Prod.fst h)
      | ok tx =>
        rw [hb] at h
        simp only [Prod.mk.injEq] at h
        obtain ⟨hregs, -⟩ := deleteRegulationBody_ok failAt rid _ _ hb
        rw [← h.2.1]
        show tx.sess.regulations.find? (fun r => r.id == rid) = none
        rw [hregs]
        exact find?_filter_not _ _
  · intro st' tr h
    apply hbr
    unfold deleteBranch at h
    cases hf : st.db.branches.find? (fun b => b.id == rid) with
    | none =>
      rw [hf] at h
      exact DelResult.noConfusion (congrArg Prod.fst h)
    | some b =>
      rw [hf] at h
      cases hb : deleteBranchBody failAt rid ⟨st.db, st.blobs, [], 0⟩ with
      | error tx =>
        rw [hb] at h
        exact DelResult.noConfusion (congrArg Prod.fst h)
      | ok tx =>
        rw [hb] at h
        simp only [Prod.mk.injEq] at h
        simp only [deleteBranchBody] at hb
        obtain ⟨tx2, h2, h'⟩ := except_bind_ok _ _ _ hb
        obtain ⟨tx3, h3, h4⟩ := except_bind_ok _ _ _ h'
        obtain ⟨-, -, hb2, -, -, -, -⟩ := noteDeleteMany_ok _ _ _ _ h2
        obtain ⟨-, -, hb3, -, -, -, -⟩ := subjectDeleteMany_ok _ _ _ _ h3
        obtain ⟨hb4, -, -, -, -, -, -⟩ := branchDeleteById_ok _ _ _ _ h4
        rw [delBlobs_sess] at hb2
        rw [← h.2.1]
        show tx.sess.branches.find? (fun b => b.id == rid) = none
        rw [hb4, hb3, hb2]
        exact find?_filter_not _ _
  · intro st' tr h
    apply hsu
    unfold deleteSubject at h
    cases hf : st.db.subjects.find? (fun s => s.id == rid) with
    | none =>
      rw [hf] at h
      exact DelResult.noConfusion (congrArg Prod.fst h)
    | some s =>
      rw [hf] at h
      cases hb : deleteSubjectBody failAt rid ⟨st.db, st.blobs, [], 0⟩ with
      | error tx =>
        rw [hb] at h
        exact DelResult.noConfusion (congrArg Prod.fst h)
      | ok tx =>
        rw [hb] at h
        simp only [Prod.mk.injEq] at h
        simp only [deleteSubjectBody] at hb
        obtain ⟨tx2, h2, h3⟩ := except_bind_ok _ _ _ hb
        obtain ⟨-, -, -, hs2, -, -, -⟩ := noteDeleteMany_ok _ _ _ _ h2
        obtain ⟨hs3, -, -, -, -, -, -⟩ := subjectDeleteById_ok _ _ _ _ h3
        rw [delBlobs_sess] at hs2
        rw [← h.2.1]
        show tx.sess.subjects.find? (fun s => s.id == rid) = none
        rw [hs3, hs2]
        exact find?_filter_not _ _

theorem c9_witness :
    deleteRegulation none 99 exSt = (DelResult.notFound, exSt, []) ∧
    deleteRegulation none 1 (deleteRegulation none 1 exSt).2.1 =
      (DelResult.notFound, (deleteRegulation none 1 exSt).2.1, []) :=
  ⟨(c9_notfound_no_side_effects exSt 99 none none).1 (by decide),
   (c9_notfound_no_side_effects exSt 1 none none).2.2.2.1
     (deleteRegulation none 1 exSt).2.1 (deleteRegulation none 1 exSt).2.2 (by decide)⟩

theorem deleteBranchBody_ok_faculties (failAt : Option Nat) (bid : OID) (tx tx' : Tx)
    (h : deleteBranchBody failAt bid tx = Except.ok tx') :
    tx'.sess.faculties = tx.sess.faculties := by
  simp only [deleteBranchBody] at h
  obtain ⟨tx2, h2, h'⟩ := except_bind_ok _ _ _ h
  obtain ⟨tx3, h3, h4⟩ := except_bind_ok _ _ _ h'
  obtain ⟨-, -, -, -, hf2, -, -⟩ := noteDeleteMany_ok _ _ _ _ h2
  obtain ⟨-, -, -, -, hf3, -, -⟩ := subjectDeleteMany_ok _ _ _ _ h3
  obtain ⟨-, -, -, -, hf4, -, -⟩ := branchDeleteById_ok _ _ _ _ h4
  rw [delBlobs_sess] at hf2
  exact hf4.trans (hf3.trans hf2)

theorem deleteSubjectBody_ok_faculties (failAt : Option Nat) (sid : OID) (tx tx' : Tx)
    (h : deleteSubjectBody failAt sid tx = Except.ok tx') :
    tx'.sess.faculties = tx.sess.faculties := by
  simp only [deleteSubjectBody] at h
  obtain ⟨tx2, h2, h3⟩ := except_bind_ok _ _ _ h
  obtain ⟨-, -, -, -, hf2, -, -⟩ := noteDeleteMany_ok _ _ _ _ h2
  obtain ⟨-, -, -, -, hf3, -, -⟩ := subjectDeleteById_ok _ _ _ _ h3
  rw [delBlobs_sess] at hf2
  exact hf3.trans hf2

theorem deleteRegulation_faculties (failAt : Option Nat) (rid : OID) (st : St) :
    ((deleteRegulation failAt rid st).2.1).db.faculties = st.db.faculties := by
  unfold deleteRegulation
  cases hf : st.db.regulations.find? (fun r => r.id == rid) with
  | none => rfl
  | some r =>
    cases hb : deleteRegulationBody failAt rid ⟨st.db, st.blobs, [], 0⟩ with
    | error tx => rfl
    | ok tx => exact (deleteRegulationBody_ok failAt rid _ _ hb).2

theorem deleteBranch_faculties (failAt : Option Nat) (bid : OID) (st : St) :
    ((deleteBranch failAt bid st).2.1).db.faculties = st.db.faculties := by
  unfold deleteBranch
  cases hf : st.db.branches.find? (fun b => b.id == bid) with
  | none => rfl
  | some b =>
    cases hb : deleteBranchBody failAt bid ⟨st.db, st.blobs, [], 0⟩ with
    | error tx => rfl
    | ok tx => exact deleteBranchBody_ok_faculties failAt bid _ _ hb

theorem deleteSubject_faculties (failAt : Option Nat) (sid : OID) (st : St) :
    ((deleteSubject failAt sid st).2.1).db.faculties = st.db.faculties := by
  unfold deleteSubject
  cases hf : st.db.subjects.find? (fun s => s.id == sid) with
  | none => rfl
  | some s =>
    cases hb : deleteSubjectBody failAt sid ⟨st.db, st.blobs, [], 0⟩ with
    | error tx => rfl
    | ok tx => exact deleteSubjectBody_ok_faculties failAt sid _ _ hb

/-- C5: the claim that every note deletion removes the note's id from the
owning faculty's uploadedNotes fails on the code: on the concrete store exSt,
whose ledger has no dangling id, the admin single-note delete route deletes
note 4 but leaves its id in faculty 7's uploadedNotes. -/
theorem c5_ledger_cex :
    noDanglingB exSt.db = true ∧
    (adminDeleteNote exSt 4).1 = DelResult.ok ∧
    noDanglingB ((adminDeleteNote exSt 4).2).db = false := by decide

/-- C5 (amended): only the direct single-note delete route maintains the
faculty ledger (it preserves the ledger invariant, given unique note ids);
the admin single-note delete route and all three cascade delete routes leave
every faculty's uploadedNotes untouched, so they may leave identifiers of
deleted notes dangling in the ledger. -/
theorem c5_ledger_amended (st : St) (nid : OID) (failAt : Option Nat) :
    ((st.db.notes.map (fun n => n.id)).Nodup → ledgerInvB st.db = true →
      ledgerInvB ((deleteNoteDirect st nid).2).db = true) ∧
    ((adminDeleteNote st nid).2.db.faculties = st.db.faculties) ∧
    (((deleteRegulation failAt nid st).2.1).db.faculties = st.db.faculties) ∧
    (((deleteBranch failAt nid st).2.1).db.faculties = st.db.faculties) ∧
    (((deleteSubject failAt nid st).2.1).db.faculties = st.db.faculties) := by
  refine ⟨?_, ?_, deleteRegulation_faculties failAt nid st,
    deleteBranch_faculties failAt nid st, deleteSubject_faculties failAt nid st⟩
  swap
  · unfold adminDeleteNote
    cases hf : st.db.notes.find? (fun n => n.id == nid) with
    | none => rfl
    | some note => rfl
  · intro hnodup hinv
    unfold deleteNoteDirect
    cases hf : st.db.notes.find? (fun n => n.id == nid) with
    | none => exact hinv
    | some note =>
      have hnote : note ∈ st.db.notes := List.mem_of_find?_eq_some hf
      simp only [ledgerInvB, List.all_eq_true, List.any_eq_true] at hinv ⊢
      intro f' hf' i hi
      obtain ⟨f, hfmem, rfl⟩ := List.mem_map.mp hf'
      by_cases hid : (f.id == note.uploadedBy) = true
      · rw [if_pos hid] at hi ⊢
        simp only [List.mem_filter] at hi
        obtain ⟨hi0, hine⟩ := hi
        obtain ⟨n, hn, hcond⟩ := hinv f hfmem i hi0
        simp only [Bool.and_eq_true, beq_iff_eq] at hcond
        refine ⟨n, List.mem_filter.mpr ⟨hn, ?_⟩, ?_⟩
        · simp only [bne_iff_ne, ne_eq]
          intro hcontra
          rw [hcond.1] at hcontra
          exact (bne_iff_ne.mp hine) hcontra
        · simp only [Bool.and_eq_true, beq_iff_eq]
          exact ⟨hcond.1, hcond.2⟩
      · rw [if_neg hid] at hi ⊢
        obtain ⟨n, hn, hcond⟩ := hinv f hfmem i hi
        simp only [Bool.and_eq_true, beq_iff_eq] at hcond
        refine ⟨n, List.mem_filter.mpr ⟨hn, ?_⟩, ?_⟩
        · simp only [bne_iff_ne, ne_eq]
          intro hcontra
          have hne : n = note := List.inj_on_of_nodup_map hnodup hn hnote hcontra
          apply hid
          rw [← hne, ← hcond.2]
          simp
        · simp only [Bool.and_eq_true, beq_iff_eq]
          exact ⟨hcond.1, hcond.2⟩

theorem c5_witness :
    ledgerInvB ((deleteNoteDirect exSt 4).2).db = true :=
  (c5_ledger_amended exSt 4 none).1 (by decide) (by decide)

theorem collectFiles_error (fetch : String → Option Blob) :
    ∀ (l : List Note) (n : Note), n ∈ l → n.fileKey ≠ "" → fetch n.fileKey = none →
    collectFiles fetch l = Except.error () := by
  intro l
  induction l with
  | nil =>
    intro n h
    cases h
  | cons m rest ih =>
    intro n hn hk hf
    rcases List.mem_cons.mp hn with rfl | hn'
    · simp only [collectFiles]
      rw [if_neg hk, hf]
    · simp only [collectFiles]
      by_cases hm : m.fileKey = ""
      · rw [if_pos hm, ih n hn' hk hf]
        rfl
      · rw [if_neg hm]
        cases hfm : fetch m.fileKey with
        | none => rfl
        | some b =>
          rw [ih n hn' hk hf]
          rfl

theorem collectFiles_ok (fetch : String → Option Blob) :
    ∀ (l : List Note), (∀ n ∈ l, n.fileKey ≠ "" ∧ (fetch n.fileKey).isSome) →
    collectFiles fetch l =
      Except.ok (l.map (fun n => some (n.title ++ ".pdf", (fetch n.fileKey).getD []))) := by
  intro l
  induction l with
  | nil => intro _; rfl
  | cons m rest ih =>
    intro h
    obtain ⟨hk, hs⟩ := h m (List.mem_cons_self m rest)
    obtain ⟨b, hb⟩ := Option.isSome_iff_exists.mp hs
    simp only [collectFiles]
    rw [if_neg hk, hb, ih (fun n hn => h n (List.mem_cons_of_mem _ hn))]
    simp only [List.map_cons, hb, Option.getD_some]
    rfl

theorem zipAdd_not_mem (es : List (String × Blob)) (nm : String) (c : Blob)
    (h : ∀ e ∈ es, e.1 ≠ nm) : zipAdd es nm c = es ++ [(nm, c)] := by
  unfold zipAdd
  rw [if_neg]
  simp only [List.any_eq_true, beq_iff_eq, not_exists]
  intro e
  rw [not_and]
  intro he
  exact h e he

theorem zipFold_append : ∀ (l acc : List (String × Blob)),
    (∀ e ∈ l, ∀ a ∈ acc, a.1 ≠ e.1) → (l.map Prod.fst).Nodup →
    (l.map some).foldl
      (fun es f => match f with | none => es | some nb => zipAdd es nb.1 nb.2) acc = acc ++ l := by
  intro l
  induction l with
  | nil =>
    intro acc _ _
    simp
  | cons e rest ih =>
    intro acc hdisj hnd
    simp only [List.map_cons, List.foldl_cons]
    rw [zipAdd_not_mem acc e.1 e.2 (fun a ha => hdisj e (List.mem_cons_self e rest) a ha)]
    rw [ih (acc ++ [(e.1, e.2)]) ?_ (List.nodup_cons.mp hnd).2]
    · simp
    · intro x hx a ha
      rcases List.mem_append.mp ha with h | h
      · exact hdisj x (List.mem_cons_of_mem _ hx) a h
      · have ha1 : a = (e.1, e.2) := by simpa using h
        rw [ha1]
        intro hcontra
        exact (List.nodup_cons.mp hnd).1 (hcontra ▸ List.mem_map_of_mem Prod.fst hx)

theorem zipAdd_mem (es : List (String × Blob)) (nm : String) (c : Blob) (e : String × Blob)
    (he : e ∈ zipAdd es nm c) : e ∈ es ∨ e = (nm, c) := by
  unfold zipAdd at he
  split at he
  · obtain ⟨a, ha, hae⟩ := List.mem_map.mp he
    by_cases h1 : (a.1 == nm) = true
    · rw [if_pos h1] at hae
      right
      exact hae.symm
    · rw [if_neg h1] at hae
      left
      exact hae ▸ ha
  · rcases List.mem_append.mp he with h | h
    · left
      exact h
    · right
      simpa using h

theorem zipBuild_sources : ∀ (fs : List (Option (String × Blob))) (acc : List (String × Blob))
    (P : String × Blob → Prop), (∀ a ∈ acc, P a) → (∀ nb, some nb ∈ fs → P nb) →
    ∀ e ∈ fs.foldl
      (fun es f => match f with | none => es | some nb => zipAdd es nb.1 nb.2) acc, P e := by
  intro fs
  induction fs with
  | nil =>
    intro acc P hacc _ e he
    exact hacc e he
  | cons f rest ih =>
    intro acc P hacc hfs e he
    cases f with
    | none => exact ih acc P hacc (fun nb h => hfs nb (List.mem_cons_of_mem _ h)) e he
    | some nb =>
      refine ih _ P ?_ (fun x h => hfs x (List.mem_cons_of_mem _ h)) e he
      intro a ha
      rcases zipAdd_mem _ _ _ _ ha with h | h
      · exact hacc a h
      · rw [h]
        exact hfs nb (List.mem_cons_self _ _)

/-- C6: if fetching the blob of at least one resolved note with a non-empty
fileKey fails, the whole archive build is aborted and surfaced as a storage
error: no partial archive is returned. -/
theorem c6_fetch_failure_aborts (fetch : String → Option Blob) (db : DB) (noteIds : List OID)
    (h : ∃ n ∈ db.notes, noteIds.contains n.id = true ∧ n.fileKey ≠ "" ∧ fetch n.fileKey = none) :
    buildArchive fetch db noteIds = ZipResult.storageError := by
  obtain ⟨n, hn, hc, hk, hf⟩ := h
  have hne : noteIds ≠ [] := by
    intro h0
    rw [h0] at hc
    exact Bool.noConfusion hc
  have hmem : n ∈ db.notes.filter (fun m => noteIds.contains m.id) :=
    List.mem_filter.mpr ⟨hn, hc⟩
  simp only [buildArchive]
  rw [if_neg (by simp [List.isEmpty_iff, hne]),
    if_neg (by simp only [List.isEmpty_iff]; exact List.ne_nil_of_mem hmem),
    collectFiles_error fetch _ n hmem hk hf]

/-- C7: an empty selection is rejected as emptySelection; a selection none of
whose ids resolve fails as notFound; and a mixed selection with at least one
existing and one nonexistent id succeeds (given resolvable blobs), silently
skipping the nonexistent ids: every archive entry comes from a resolved
note. -/
theorem c7_selection_handling (fetch : String → Option Blob) (db : DB) (noteIds : List OID) :
    (noteIds = [] → buildArchive fetch db noteIds = ZipResult.emptySelection) ∧
    (noteIds ≠ [] → db.notes.filter (fun n => noteIds.contains n.id) = [] →
      buildArchive fetch db noteIds = ZipResult.notFound) ∧
    ((∃ n ∈ db.notes, noteIds.contains n.id = true) →
      (∃ i ∈ noteIds, ∀ n ∈ db.notes, n.id ≠ i) →
      (∀ n ∈ db.notes.filter (fun n => noteIds.contains n.id),
        n.fileKey ≠ "" ∧ (fetch n.fileKey).isSome) →
      ∃ es, buildArchive fetch db noteIds = ZipResult.ok es ∧
        ∀ e ∈ es, ∃ n ∈ db.notes.filter (fun n => noteIds.contains n.id),
          e.1 = n.title ++ ".pdf" ∧ e.2 = (fetch n.fileKey).getD []) := by
  refine ⟨?_, ?_, ?_⟩
  · intro h
    rw [h]
    rfl
  · intro hne hres
    simp only [buildArchive]
    rw [if_neg (by simp [List.isEmpty_iff, hne]), hres]
    rfl
  · intro hex _ hfk
    obtain ⟨n, hn, hc⟩ := hex
    have hne : noteIds ≠ [] := by
      intro h0
      rw [h0] at hc
      exact Bool.noConfusion hc
    have hmem : n ∈ db.notes.filter (fun m => noteIds.contains m.id) :=
      List.mem_filter.mpr ⟨hn, hc⟩
    refine ⟨zipBuild ((db.notes.filter (fun m => noteIds.contains m.id)).map
      (fun m => some (m.title ++ ".pdf", (fetch m.fileKey).getD []))), ?_, ?_⟩
    · simp only [buildArchive]
      rw [if_neg (by simp [List.isEmpty_iff, hne]),
        if_neg (by simp only [List.isEmpty_iff]; exact List.ne_nil_of_mem hmem),
        collectFiles_ok fetch _ hfk]
    · intro e he
      have hmap : (db.notes.filter (fun m => noteIds.contains m.id)).map
          (fun m => some (m.title ++ ".pdf", (fetch m.fileKey).getD [])) =
          ((db.notes.filter (fun m => noteIds.contains m.id)).map
            (fun m => (m.title ++ ".pdf", (fetch m.fileKey).getD []))).map some := by
        rw [List.map_map]
        rfl
      unfold zipBuild at he
      rw [hmap] at he
      refine zipBuild_sources _ []
        (fun e => ∃ n ∈ db.notes.filter (fun n => noteIds.contains n.id),
          e.1 = n.title ++ ".pdf" ∧ e.2 = (fetch n.fileKey).getD [])
        (by intro a ha; cases ha) ?_ e he
      intro nb hnb
      obtain ⟨m, hm, hms⟩ := List.mem_map.mp hnb
      obtain ⟨m2, hm2, he2⟩ := List.mem_map.mp hm
      have hmn : m = nb := Option.some.inj hms
      refine ⟨m2, hm2, ?_, ?_⟩
      · rw [← hmn, ← he2]
      · rw [← hmn, ← he2]

theorem buildArchive_ok_of_collect (fetch : String → Option Blob) (db : DB)
    (noteIds : List OID) (hid : noteIds ≠ [])
    (hne : db.notes.filter (fun n => noteIds.contains n.id) ≠ [])
    (fs : List (Option (String × Blob)))
    (hc : collectFiles fetch (db.notes.filter (fun n => noteIds.contains n.id)) = Except.ok fs) :
    buildArchive fetch db noteIds = ZipResult.ok (zipBuild fs) := by
  simp only [buildArchive]
  rw [if_neg (by simp [List.isEmpty_iff, hid]),
    if_neg (by simp only [List.isEmpty_iff]; exact hne), hc]

/-- C8: for resolved notes with pairwise distinct titles and resolvable
blobs, the archive has exactly one entry per note, named title ++ ".pdf" and
carrying exactly the note's blob bytes. -/
theorem c8_archive_roundtrip (fetch : String → Option Blob) (db : DB) (noteIds : List OID)
    (hne : db.notes.filter (fun n => noteIds.contains n.id) ≠ [])
    (hnd : ((db.notes.filter (fun n => noteIds.contains n.id)).map (fun n => n.title)).Nodup)
    (hfk : ∀ n ∈ db.notes.filter (fun n => noteIds.contains n.id),
      n.fileKey ≠ "" ∧ (fetch n.fileKey).isSome) :
    buildArchive fetch db noteIds = ZipResult.ok
      ((db.notes.filter (fun n => noteIds.contains n.id)).map
        (fun n => (n.title ++ ".pdf", (fetch n.fileKey).getD []))) := by
  obtain ⟨n, hmem⟩ := List.exists_mem_of_ne_nil _ hne
  have hc : noteIds.contains n.id = true := (List.mem_filter.mp hmem).2
  have hid : noteIds ≠ [] := by
    intro h0
    rw [h0] at hc
    exact Bool.noConfusion hc
  have hmap : (db.notes.filter (fun m => noteIds.contains m.id)).map
      (fun m => some (m.title ++ ".pdf", (fetch m.fileKey).getD [])) =
      ((db.notes.filter (fun m => noteIds.contains m.id)).map
        (fun m => (m.title ++ ".pdf", (fetch m.fileKey).getD []))).map some := by
    rw [List.map_map]
    rfl
  have hnames : (((db.notes.filter (fun m => noteIds.contains m.id)).map
      (fun m => (m.title ++ ".pdf", (fetch m.fileKey).getD []))).map Prod.fst).Nodup := by
    rw [List.map_map]
    have heq : ((db.notes.filter (fun m => noteIds.contains m.id)).map
        (Prod.fst ∘ fun m => (m.title ++ ".pdf", (fetch m.fileKey).getD []))) =
        ((db.notes.filter (fun m => noteIds.contains m.id)).map (fun m => m.title)).map
          (fun t => t ++ ".pdf") := by
      rw [List.map_map]
      rfl
    rw [heq]
    refine hnd.map ?_
    intro a b hab
    apply String.ext
    have h2 := congrArg String.data hab
    rw [String.data_append, String.data_append] at h2
    exact List.append_cancel_right h2
  have hz : zipBuild ((db.notes.filter (fun m => noteIds.contains m.id)).map
      (fun m => some (m.title ++ ".pdf", (fetch m.fileKey).getD []))) =
      (db.notes.filter (fun m => noteIds.contains m.id)).map
        (fun m => (m.title ++ ".pdf", (fetch m.fileKey).getD [])) := by
    unfold zipBuild
    rw [hmap, zipFold_append _ [] (by intro e _ a ha; cases ha) hnames]
    rfl
  rw [buildArchive_ok_of_collect fetch db noteIds hid hne _ (collectFiles_ok fetch _ hfk), hz]

theorem c6_witness : buildArchive badFetch exSt.db [4] = ZipResult.storageError :=
  c6_fetch_failure_aborts badFetch exSt.db [4]
    ⟨exNote, by decide, by decide, by decide, by decide⟩

theorem c7_witness :
    buildArchive goodFetch exSt.db [] = ZipResult.emptySelection ∧
    buildArchive goodFetch exSt.db [99] = ZipResult.notFound ∧
    ∃ es, buildArchive goodFetch exSt.db [4, 99] = ZipResult.ok es ∧
      ∀ e ∈ es, ∃ n ∈ exSt.db.notes.filter (fun n => [4, 99].contains n.id),
        e.1 = n.title ++ ".pdf" ∧ e.2 = (goodFetch n.fileKey).getD [] :=
  ⟨(c7_selection_handling goodFetch exSt.db []).1 rfl,
   (c7_selection_handling goodFetch exSt.db [99]).2.1 (by decide) (by decide),
   (c7_selection_handling goodFetch exSt.db [4, 99]).2.2
     ⟨exNote, by decide, by decide⟩ ⟨99, by decide, by decide⟩ (by decide)⟩

theorem c8_witness :
    buildArchive goodFetch exSt.db [4] = ZipResult.ok [("T.pdf", [7])] :=
  c8_archive_roundtrip goodFetch exSt.db [4] (by decide) (by decide) (by decide)

theorem scrub_eq_fields (f g : Faculty) (h : f.scrub = g.scrub) :
    f.id = g.id ∧ f.name = g.name ∧ f.email = g.email ∧ f.employeeId = g.employeeId ∧
    f.designation = g.designation ∧ f.uploadedNotes = g.uploadedNotes ∧
    f.createdAt = g.createdAt := by
  cases f
  cases g
  simp only [Faculty.scrub, Faculty.mk.injEq] at h
  simp_all

theorem scrub_eq_id (f g : Faculty) (h : f.scrub = g.scrub) : f.id = g.id :=
  (scrub_eq_fields f g h).1

theorem scrub_eq_email (f g : Faculty) (h : f.scrub = g.scrub) : f.email = g.email :=
  (scrub_eq_fields f g h).2.2.1

theorem scrub_eq_employeeId (f g : Faculty) (h : f.scrub = g.scrub) :
    f.employeeId = g.employeeId :=
  (scrub_eq_fields f g h).2.2.2.1

theorem scrub_eq_createdAt (f g : Faculty) (h : f.scrub = g.scrub) :
    f.createdAt = g.createdAt :=
  (scrub_eq_fields f g h).2.2.2.2.2.2

theorem scrub_eq_view (f g : Faculty) (h : f.scrub = g.scrub) : f.view = g.view := by
  obtain ⟨h1, h2, h3, h4, h5, h6, h7⟩ := scrub_eq_fields f g h
  unfold Faculty.view
  rw [h1, h2, h3, h4, h5, h6, h7]

theorem scrub_eq_update_email (f g : Faculty) (h : f.scrub = g.scrub) (e : String) :
    ({ f with email := e }).scrub = ({ g with email := e }).scrub := by
  cases f
  cases g
  simp only [Faculty.scrub, Faculty.mk.injEq] at h ⊢
  simp_all

theorem scrub_eq_update_employeeId (f g : Faculty) (h : f.scrub = g.scrub) (e : String) :
    ({ f with employeeId := e }).scrub = ({ g with employeeId := e }).scrub := by
  cases f
  cases g
  simp only [Faculty.scrub, Faculty.mk.injEq] at h ⊢
  simp_all

theorem insertDesc_rel (f g : Faculty) (hfg : f.scrub = g.scrub) :
    ∀ (as bs : List Faculty), List.Forall₂ (fun a b => a.scrub = b.scrub) as bs →
    List.Forall₂ (fun a b => a.scrub = b.scrub) (insertDesc f as) (insertDesc g bs) := by
  intro as bs h
  induction h with
  | nil => exact List.Forall₂.cons hfg List.Forall₂.nil
  | @cons a b l1 l2 hab htail ih =>
    have hca : a.createdAt = b.createdAt := scrub_eq_createdAt a b hab
    have hcf : f.createdAt = g.createdAt := scrub_eq_createdAt f g hfg
    unfold insertDesc
    by_cases hlt : a.createdAt < f.createdAt
    · rw [if_pos hlt, if_pos (by rw [← hca, ← hcf]; exact hlt)]
      exact List.Forall₂.cons hfg (List.Forall₂.cons hab htail)
    · rw [if_neg hlt, if_neg (by rw [← hca, ← hcf]; exact hlt)]
      exact List.Forall₂.cons hab ih

theorem sortByCreatedDesc_rel : ∀ (as bs : List Faculty),
    List.Forall₂ (fun a b => a.scrub = b.scrub) as bs →
    List.Forall₂ (fun a b => a.scrub = b.scrub) (sortByCreatedDesc as) (sortByCreatedDesc bs) := by
  intro as bs h
  induction h with
  | nil => exact List.Forall₂.nil
  | @cons a b l1 l2 hab htail ih => exact insertDesc_rel a b hab _ _ ih

theorem map_view_rel : ∀ (as bs : List Faculty),
    List.Forall₂ (fun a b => a.scrub = b.scrub) as bs →
    as.map Faculty.view = bs.map Faculty.view := by
  intro as bs h
  induction h with
  | nil => rfl
  | @cons a b l1 l2 hab htail ih => simp [List.map_cons, scrub_eq_view a b hab, ih]

theorem any_rel (p q : Faculty → Bool) (hpq : ∀ a b, a.scrub = b.scrub → p a = q b) :
    ∀ (as bs : List Faculty), List.Forall₂ (fun a b => a.scrub = b.scrub) as bs →
    as.any p = bs.any q := by
  intro as bs h
  induction h with
  | nil => rfl
  | @cons a b l1 l2 hab htail ih => simp [List.any_cons, hpq a b hab, ih]

theorem find?_rel (fid : OID) : ∀ (as bs : List Faculty),
    List.Forall₂ (fun a b => a.scrub = b.scrub) as bs →
    (as.find? (fun f => f.id == fid) = none ∧ bs.find? (fun f => f.id == fid) = none) ∨
    (∃ f g, as.find? (fun f => f.id == fid) = some f ∧
      bs.find? (fun f => f.id == fid) = some g ∧ f.scrub = g.scrub) := by
  intro as bs h
  induction h with
  | nil => exact Or.inl ⟨rfl, rfl⟩
  | @cons a b l1 l2 hab htail ih =>
    have hid : a.id = b.id := scrub_eq_id a b hab
    by_cases hc : (a.id == fid) = true
    · have hc2 : (b.id == fid) = true := by rw [← hid]; exact hc
      refine Or.inr ⟨a, b, ?_, ?_, hab⟩
      · simp [List.find?_cons, hc]
      · simp [List.find?_cons, hc2]
    · have hcf : (a.id == fid) = false := by simpa using hc
      have hcf2 : (b.id == fid) = false := by rw [← hid]; exact hcf
      simpa only [List.find?_cons, hcf, hcf2] using ih

theorem updateFacultySave_rel (hash : String → String) (dbA dbB : DB) (fid : OID)
    (r : UpdateFacultyReq) (f g : Faculty) (hfg : f.scrub = g.scrub) :
    (updateFacultySave hash dbA fid r f).1 = (updateFacultySave hash dbB fid r g).1 := by
  obtain ⟨h1, h2, h3, h4, h5, h6, h7⟩ := scrub_eq_fields f g hfg
  unfold updateFacultySave
  by_cases hn : r.name ≠ "" <;> by_cases hd : r.designation ≠ "" <;>
    by_cases hp : r.password ≠ "" <;>
      simp [hn, hd, hp, Faculty.view, h1, h2, h3, h4, h5, h6, h7]

theorem updateFacultyEmp_rel (hash : String → String) (dbA dbB : DB) (fid : OID)
    (r : UpdateFacultyReq) (f g : Faculty)
    (hdb : List.Forall₂ (fun a b => a.scrub = b.scrub) dbA.faculties dbB.faculties)
    (hfg : f.scrub = g.scrub) :
    (updateFacultyEmp hash dbA fid r f).1 = (updateFacultyEmp hash dbB fid r g).1 := by
  have hany : (dbA.faculties.any (fun g => g.employeeId == r.employeeId && g.id != fid)) =
      (dbB.faculties.any (fun g => g.employeeId == r.employeeId && g.id != fid)) :=
    any_rel _ _ (fun a b hab => by
      rw [scrub_eq_employeeId a b hab, scrub_eq_id a b hab]) _ _ hdb
  have hemp : f.employeeId = g.employeeId := scrub_eq_employeeId f g hfg
  unfold updateFacultyEmp
  by_cases hcond : r.employeeId ≠ "" ∧ r.employeeId ≠ f.employeeId
  · have hcond2 : r.employeeId ≠ "" ∧ r.employeeId ≠ g.employeeId :=
      ⟨hcond.1, by rw [← hemp]; exact hcond.2⟩
    rw [if_pos hcond, if_pos hcond2]
    by_cases hex : (dbA.faculties.any
        (fun g => g.employeeId == r.employeeId && g.id != fid)) = true
    · have hex2 : (dbB.faculties.any
          (fun g => g.employeeId == r.employeeId && g.id != fid)) = true := by
        rw [← hany]; exact hex
      rw [if_pos hex, if_pos hex2]
    · have hex2 : ¬(dbB.faculties.any
          (fun g => g.employeeId == r.employeeId && g.id != fid)) = true := by
        rw [← hany]; exact hex
      rw [if_neg hex, if_neg hex2]
      exact updateFacultySave_rel hash dbA dbB fid r _ _
        (scrub_eq_update_employeeId f g hfg r.employeeId)
  · have hcond2 : ¬(r.employeeId ≠ "" ∧ r.employeeId ≠ g.employeeId) := by
      rw [← hemp]; exact hcond
    rw [if_neg hcond, if_neg hcond2]
    exact updateFacultySave_rel hash dbA dbB fid r f g hfg

/-- C10: the admin faculty endpoints list/create/update never reveal the
stored password: their response bodies are identical across any two stores
whose faculty records agree on everything except the password field. -/
theorem c10_password_noninterference (dbA dbB : DB) (hash : String → String)
    (fid freshId : OID) (now : Nat) (cr : CreateFacultyReq) (ur : UpdateFacultyReq)
    (hdb : List.Forall₂ (fun a b => a.scrub = b.scrub) dbA.faculties dbB.faculties) :
    listFaculty dbA = listFaculty dbB ∧
    (createFaculty hash freshId now dbA cr).1 = (createFaculty hash freshId now dbB cr).1 ∧
    (updateFaculty hash dbA fid ur).1 = (updateFaculty hash dbB fid ur).1 := by
  refine ⟨?_, ?_, ?_⟩
  · unfold listFaculty
    exact map_view_rel _ _ (sortByCreatedDesc_rel _ _ hdb)
  · have he : (dbA.faculties.any (fun f => f.email == cr.email)) =
        (dbB.faculties.any (fun f => f.email == cr.email)) :=
      any_rel _ _ (fun a b hab => by rw [scrub_eq_email a b hab]) _ _ hdb
    have hemp : (dbA.faculties.any (fun f => f.employeeId == cr.employeeId)) =
        (dbB.faculties.any (fun f => f.employeeId == cr.employeeId)) :=
      any_rel _ _ (fun a b hab => by rw [scrub_eq_employeeId a b hab]) _ _ hdb
    unfold createFaculty
    by_cases h1 : cr.name = "" ∨ cr.email = "" ∨ cr.password = "" ∨ cr.employeeId = "" ∨
        cr.designation = ""
    · rw [if_pos h1, if_pos h1]
    · rw [if_neg h1, if_neg h1]
      by_cases h2 : (dbA.faculties.any (fun f => f.email == cr.email)) = true
      · have h2b : (dbB.faculties.any (fun f => f.email == cr.email)) = true := by
          rw [← he]; exact h2
        rw [if_pos h2, if_pos h2b]
      · have h2b : ¬(dbB.faculties.any (fun f => f.email == cr.email)) = true := by
          rw [← he]; exact h2
        rw [if_neg h2, if_neg h2b]
        by_cases h3 : (dbA.faculties.any (fun f => f.employeeId == cr.employeeId)) = true
        · have h3b : (dbB.faculties.any (fun f => f.employeeId == cr.employeeId)) = true := by
            rw [← hemp]; exact h3
          rw [if_pos h3, if_pos h3b]
        · have h3b : ¬(dbB.faculties.any (fun f => f.employeeId == cr.employeeId)) = true := by
            rw [← hemp]; exact h3
          rw [if_neg h3, if_neg h3b]
  · rcases find?_rel fid _ _ hdb with ⟨hA, hB⟩ | ⟨f, g, hA, hB, hfg⟩
    · simp only [updateFaculty, hA, hB]
    · have hanyE : (dbA.faculties.any (fun g => g.email == ur.email && g.id != fid)) =
          (dbB.faculties.any (fun g => g.email == ur.email && g.id != fid)) :=
        any_rel _ _ (fun a b hab => by
          rw [scrub_eq_email a b hab, scrub_eq_id a b hab]) _ _ hdb
      have hemail : f.email = g.email := scrub_eq_email f g hfg
      simp only [updateFaculty, hA, hB]
      by_cases hc : ur.email ≠ "" ∧ ur.email ≠ f.email
      · have hc2 : ur.email ≠ "" ∧ ur.email ≠ g.email := ⟨hc.1, by rw [← hemail]; exact hc.2⟩
        rw [if_pos hc, if_pos hc2]
        by_cases hex : (dbA.faculties.any (fun g => g.email == ur.email && g.id != fid)) = true
        · have hex2 : (dbB.faculties.any (fun g => g.email == ur.email && g.id != fid)) = true := by
            rw [← hanyE]; exact hex
          rw [if_pos hex, if_pos hex2]
        · have hex2 : ¬(dbB.faculties.any (fun g => g.email == ur.email && g.id != fid)) = true := by
            rw [← hanyE]; exact hex
          rw [if_neg hex, if_neg hex2]
          exact updateFacultyEmp_rel hash dbA dbB fid ur _ _ hdb
            (scrub_eq_update_email f g hfg ur.email)
      · have hc2 : ¬(ur.email ≠ "" ∧ ur.email ≠ g.email) := by
          rw [← hemail]; exact hc
        rw [if_neg hc, if_neg hc2]
        exact updateFacultyEmp_rel hash dbA dbB fid ur f g hdb hfg
theorem noteDeleteMany_empty (failAt : Option Nat) (p : Note → Bool) (tx tx' : Tx)
    (hkeys : tx.sess.notes.filter p = [])
    (h : noteDeleteMany failAt p tx = Except.ok tx') :
    tx'.sess = tx.sess ∧ tx'.blobs = tx.blobs ∧ tx'.trace = tx.trace := by
  obtain ⟨hn, hr, hb, hs, hf, hblobs, htr⟩ := noteDeleteMany_ok failAt p tx tx' h
  have hallp := List.filter_eq_nil_iff.mp hkeys
  have hfs : tx.sess.notes.filter (fun n => !(p n)) = tx.sess.notes := by
    apply List.filter_eq_self.mpr
    intro n hn2
    have hf2 : p n = false := Bool.eq_false_iff.mpr (hallp n hn2)
    rw [hf2]
    rfl
  refine ⟨?_, hblobs, ?_⟩
  · apply DB.ext
    · exact hr
    · exact hb
    · exact hs
    · rw [hn, hfs]
    · exact hf
  · rw [htr, hkeys]
    simp

theorem subjLoop_char (db0 : DB) (rid : OID) (hc : consistentDB db0) (b : Branch)
    (hb : b ∈ db0.branches) (hbr : b.regulation = rid) :
    ∀ (ss : List Subject) (failAt : Option Nat) (tx : Tx),
    (∀ s ∈ ss, s ∈ db0.subjects ∧ s.branch = b.id) →
    List.Sublist tx.sess.notes db0.notes →
    (∀ n ∈ tx.sess.notes, n.regulation ≠ rid) →
    ∀ tx', subjLoop failAt ss tx = Except.ok tx' →
      tx'.sess = tx.sess ∧ tx'.blobs = tx.blobs ∧ tx'.trace = tx.trace := by
  intro ss
  induction ss with
  | nil =>
    intro failAt tx _ _ _ tx' h
    injection h with h
    rw [h]
    exact ⟨rfl, rfl, rfl⟩
  | cons s rest ih =>
    intro failAt tx hss hsub hinv tx' h
    have hsb := hss s (List.mem_cons_self s rest)
    have hkeys : tx.sess.notes.filter (fun n => n.subject == s.id) = [] := by
      apply List.filter_eq_nil_iff.mpr
      intro n hn hps
      have hns : n.subject = s.id := beq_iff_eq.mp hps
      have hn0 : n ∈ db0.notes := hsub.subset hn
      have hb1 : n.branch = s.branch := hc.1 n hn0 s hsb.1 hns
      have hb2 : n.branch = b.id := by rw [hb1, hsb.2]
      exact hinv n hn ((hc.2 n hn0 b hb hb2).trans hbr)
    simp only [subjLoop] at h
    rw [hkeys] at h
    simp only [List.map_nil] at h
    obtain ⟨tx2, h2, hrest⟩ := except_bind_ok _ _ _ h
    obtain ⟨hsess2, hblobs2, htr2⟩ := noteDeleteMany_empty _ _ _ _ hkeys h2
    obtain ⟨hsess', hblobs', htr'⟩ := ih failAt tx2
      (fun t ht => hss t (List.mem_cons_of_mem _ ht))
      (by rw [hsess2]; exact hsub) (by rw [hsess2]; exact hinv) tx' hrest
    exact ⟨hsess'.trans hsess2, hblobs'.trans hblobs2, htr'.trans htr2⟩

theorem branchLoop_char (db0 : DB) (rid : OID) (hc : consistentDB db0) :
    ∀ (bs : List Branch) (failAt : Option Nat) (tx : Tx),
    (∀ b ∈ bs, b ∈ db0.branches ∧ b.regulation = rid) →
    List.Sublist tx.sess.notes db0.notes →
    List.Sublist tx.sess.subjects db0.subjects →
    (∀ n ∈ tx.sess.notes, n.regulation ≠ rid) →
    ∀ tx', branchLoop failAt bs tx = Except.ok tx' →
      tx'.sess.notes = tx.sess.notes ∧
      tx'.sess.branches = tx.sess.branches ∧
      tx'.sess.regulations = tx.sess.regulations ∧
      tx'.sess.faculties = tx.sess.faculties ∧
      List.Sublist tx'.sess.subjects tx.sess.subjects ∧
      tx'.blobs = tx.blobs ∧
      (∀ s ∈ tx'.sess.subjects, ∀ b ∈ bs, s.branch ≠ b.id) ∧
      ∃ sids : List OID, tx'.trace = tx.trace ++ sids.map Ev.delSubject ∧
        ∀ s ∈ tx.sess.subjects, (∃ b ∈ bs, s.branch = b.id) → s.id ∈ sids := by
  intro bs
  induction bs with
  | nil =>
    intro failAt tx _ _ _ _ tx' h
    injection h with h
    rw [h]
    refine ⟨rfl, rfl, rfl, rfl, List.Sublist.refl _, rfl, ?_, [], by simp, ?_⟩
    · intro s _ b hb
      cases hb
    · intro s _ hex
      obtain ⟨b, hb, -⟩ := hex
      cases hb
  | cons b rest ih =>
    intro failAt tx hbs hsubN hsubS hinv tx' h
    have hbb := hbs b (List.mem_cons_self b rest)
    have hkeys : tx.sess.notes.filter (fun n => n.branch == b.id) = [] := by
      apply List.filter_eq_nil_iff.mpr
      intro n hn hps
      have hnb : n.branch = b.id := beq_iff_eq.mp hps
      have hn0 : n ∈ db0.notes := hsubN.subset hn
      exact hinv n hn ((hc.2 n hn0 b hbb.1 hnb).trans hbb.2)
    simp only [branchLoop] at h
    rw [hkeys] at h
    simp only [List.map_nil] at h
    obtain ⟨tx2, h2, h'⟩ := except_bind_ok _ _ _ h
    obtain ⟨hsess2, hblobs2, htr2⟩ := noteDeleteMany_empty _ _ _ _ hkeys h2
    obtain ⟨tx3, h3, h''⟩ := except_bind_ok _ _ _ h'
    have hssb : ∀ s ∈ tx2.sess.subjects.filter (fun s => s.branch == b.id),
        s ∈ db0.subjects ∧ s.branch = b.id := by
      intro s hs
      obtain ⟨hs1, hs2⟩ := List.mem_filter.mp hs
      rw [hsess2] at hs1
      exact ⟨hsubS.subset hs1, beq_iff_eq.mp hs2⟩
    obtain ⟨hsess3, hblobs3, htr3⟩ := subjLoop_char db0 rid hc b hbb.1 hbb.2 _ failAt tx2 hssb
      (by rw [hsess2]; exact hsubN) (by rw [hsess2]; exact hinv) tx3 h3
    obtain ⟨tx4, h4, hrest⟩ := except_bind_ok _ _ _ h''
    obtain ⟨h4subj, h4regs, h4br, h4notes, h4fac, h4blobs, h4trace⟩ :=
      subjectDeleteMany_ok _ _ _ _ h4
    have hsess32 : tx3.sess = tx.sess := hsess3.trans hsess2
    have h4subj' : tx4.sess.subjects = tx.sess.subjects.filter (fun s => !(s.branch == b.id)) := by
      rw [h4subj, hsess32]
    have h4notes' : tx4.sess.notes = tx.sess.notes := by
      rw [h4notes, hsess32]
    have h4trace' : tx4.trace = tx.trace ++
        ((tx.sess.subjects.filter (fun s => s.branch == b.id)).map
          (fun s => Ev.delSubject s.id)) := by
      rw [h4trace, htr3, htr2, hsess32]
    obtain ⟨ihN, ihB, ihR, ihF, ihSub, ihBl, ihAbs, sids', ihTr, ihCov⟩ :=
      ih failAt tx4 (fun t ht => hbs t (List.mem_cons_of_mem _ ht))
        (by rw [h4notes']; exact hsubN)
        (by rw [h4subj']; exact (List.filter_sublist _).trans hsubS)
        (by rw [h4notes']; exact hinv) tx' hrest
    refine ⟨?_, ?_, ?_, ?_, ?_, ?_, ?_, ?_⟩
    · rw [ihN, h4notes']
    · rw [ihB, h4br, hsess32]
    · rw [ihR, h4regs, hsess32]
    · rw [ihF, h4fac, hsess32]
    · refine ihSub.trans ?_
      rw [h4subj']
      exact List.filter_sublist _
    · rw [ihBl, h4blobs, hblobs3, hblobs2]
    · intro s hs b2 hb2
      rcases List.mem_cons.mp hb2 with rfl | hb2'
      · have hs4 : s ∈ tx4.sess.subjects := ihSub.subset hs
        rw [h4subj'] at hs4
        have := (List.mem_filter.mp hs4).2
        intro hcontra
        rw [hcontra] at this
        simp at this
      · exact ihAbs s hs b2 hb2'
    · refine ⟨((tx.sess.subjects.filter (fun s => s.branch == b.id)).map
        (fun s => s.id)) ++ sids', ?_, ?_⟩
      · rw [ihTr, h4trace', List.map_append, List.map_map, List.append_assoc]
        rfl
      · intro s hs hex
        by_cases hsb : s.branch = b.id
        · apply List.mem_append_left
          exact List.mem_map_of_mem _ (List.mem_filter.mpr ⟨hs, by simp [hsb]⟩)
        · obtain ⟨b2, hb2, hsb2⟩ := hex
          rcases List.mem_cons.mp hb2 with rfl | hb2'
          · exact absurd hsb2 hsb
          · apply List.mem_append_right
            refine ihCov s ?_ ⟨b2, hb2', hsb2⟩
            rw [h4subj']
            exact List.mem_filter.mpr ⟨hs, by simp [hsb]⟩

theorem deleteRegulation_ok_char (st : St) (rid : OID) (failAt : Option Nat)
    (hc : consistentDB st.db) (st' : St) (tr : List Ev)
    (h : deleteRegulation failAt rid st = (DelResult.ok, st', tr)) :
    st'.db.notes = st.db.notes.filter (fun n => !(n.regulation == rid)) ∧
    st'.db.branches = st.db.branches.filter (fun b => !(b.regulation == rid)) ∧
    st'.db.regulations = st.db.regulations.filter (fun r => !(r.id == rid)) ∧
    st'.db.faculties = st.db.faculties ∧
    List.Sublist st'.db.subjects st.db.subjects ∧
    (∀ s ∈ st'.db.subjects, ∀ b ∈ st.db.branches, b.regulation = rid → s.branch ≠ b.id) ∧
    ∃ sids : List OID,
      tr = ((st.db.notes.filter (fun n => n.regulation == rid)).map
              (fun n => Ev.blobDel n.fileKey)) ++
           ((st.db.notes.filter (fun n => n.regulation == rid)).map
              (fun n => Ev.delNote n.id)) ++
           sids.map Ev.delSubject ++
           ((st.db.branches.filter (fun b => b.regulation == rid)).map
              (fun b => Ev.delBranch b.id)) ++
           [Ev.delRegulation rid, Ev.commit] ∧
      ∀ s ∈ st.db.subjects, (∃ b ∈ st.db.branches, b.regulation = rid ∧ s.branch = b.id) →
        s.id ∈ sids := by
  unfold deleteRegulation at h
  cases hf : st.db.regulations.find? (fun r => r.id == rid) with
  | none =>
    rw [hf] at h
    exact DelResult.noConfusion (congrArg Prod.fst h)
  | some r =>
    rw [hf] at h
    cases hb : deleteRegulationBody failAt rid ⟨st.db, st.blobs, [], 0⟩ with
    | error tx =>
      rw [hb] at h
      exact DelResult.noConfusion (congrArg Prod.fst h)
    | ok tx =>
      rw [hb] at h
      simp only [Prod.mk.injEq] at h
      obtain ⟨-, hst', htr⟩ := h
      simp only [deleteRegulationBody] at hb
      obtain ⟨tx2, h2, h'⟩ := except_bind_ok _ _ _ hb
      obtain ⟨tx3, h3, h''⟩ := except_bind_ok _ _ _ h'
      obtain ⟨tx4, h4, h5⟩ := except_bind_ok _ _ _ h''
      obtain ⟨h2notes, h2regs, h2br, h2subj, h2fac, h2blobs, h2tr⟩ :=
        noteDeleteMany_ok _ _ _ _ h2
      rw [delBlobs_sess] at h2notes h2regs h2br h2subj h2fac
      rw [delBlobs_trace, delBlobs_sess] at h2tr
      dsimp only at h2notes h2regs h2br h2subj h2fac h2tr
      have hbs : ∀ b2 ∈ tx2.sess.branches.filter (fun b2 => b2.regulation == rid),
          b2 ∈ st.db.branches ∧ b2.regulation = rid := by
        intro b2 hb2
        obtain ⟨hm, hp⟩ := List.mem_filter.mp hb2
        rw [h2br] at hm
        exact ⟨hm, beq_iff_eq.mp hp⟩
      have hsubN : List.Sublist tx2.sess.notes st.db.notes := by
        rw [h2notes]
        exact List.filter_sublist _
      have hsubS : List.Sublist tx2.sess.subjects st.db.subjects := by
        rw [h2subj]
      have hinv : ∀ n ∈ tx2.sess.notes, n.regulation ≠ rid := by
        intro n hn
        rw [h2notes] at hn
        have hp := (List.mem_filter.mp hn).2
        simp only [Bool.not_eq_true', beq_eq_false_iff_ne, ne_eq] at hp
        exact hp
      obtain ⟨lN, lB, lR, lF, lSub, lBl, lAbs, sids, lTr, lCov⟩ :=
        branchLoop_char st.db rid hc _ failAt tx2 hbs hsubN hsubS hinv tx3 h3
      obtain ⟨h4brs, h4regs, h4subj, h4notes, h4fac, h4blobs, h4tr⟩ :=
        branchDeleteMany_ok _ _ _ _ h4
      obtain ⟨h5regs, h5br, h5subj, h5notes, h5fac, h5blobs, h5tr⟩ :=
        regulationDeleteById_ok _ _ _ _ h5
      have hdb' : st'.db = tx.sess := by
        rw [← hst']
      have hbr3 : tx3.sess.branches = st.db.branches := by
        rw [lB, h2br]
      refine ⟨?_, ?_, ?_, ?_, ?_, ?_, sids, ?_, ?_⟩
      · rw [hdb', h5notes, h4notes, lN, h2notes]
      · rw [hdb', h5br, h4brs, hbr3]
      · rw [hdb', h5regs, h4regs, lR, h2regs]
      · rw [hdb', h5fac, h4fac, lF, h2fac]
      · rw [hdb', h5subj, h4subj]
        exact lSub.trans (by rw [h2subj])
      · intro s hs b2 hb2 hbreg
        rw [hdb', h5subj, h4subj] at hs
        refine lAbs s hs b2 ?_
        refine List.mem_filter.mpr ⟨?_, by simp [hbreg]⟩
        rw [h2br]
        exact hb2
      · rw [← htr, h5tr, h4tr, lTr, h2tr, hbr3]
        simp only [List.nil_append, List.map_map, List.append_assoc, List.cons_append,
          List.singleton_append]
        rfl
      · intro s hs hex
        obtain ⟨b2, hb2, hbreg, hsb⟩ := hex
        refine lCov s (by rw [h2subj]; exact hs) ⟨b2, ?_, hsb⟩
        refine List.mem_filter.mpr ⟨?_, by simp [hbreg]⟩
        rw [h2br]
        exact hb2

theorem deleteBranch_ok_char (st : St) (bid : OID) (failAt : Option Nat) (st' : St)
    (tr : List Ev) (h : deleteBranch failAt bid st = (DelResult.ok, st', tr)) :
    st'.db.notes = st.db.notes.filter (fun n => !(n.branch == bid)) ∧
    st'.db.subjects = st.db.subjects.filter (fun s => !(s.branch == bid)) ∧
    st'.db.branches = st.db.branches.filter (fun b => !(b.id == bid)) ∧
    st'.db.regulations = st.db.regulations ∧
    st'.db.faculties = st.db.faculties ∧
    tr = ((st.db.notes.filter (fun n => n.branch == bid)).map
            (fun n => Ev.blobDel n.fileKey)) ++
         ((st.db.notes.filter (fun n => n.branch == bid)).map (fun n => Ev.delNote n.id)) ++
         ((st.db.subjects.filter (fun s => s.branch == bid)).map
            (fun s => Ev.delSubject s.id)) ++
         [Ev.delBranch bid, Ev.commit] := by
  unfold deleteBranch at h
  cases hf : st.db.branches.find? (fun b => b.id == bid) with
  | none =>
    rw [hf] at h
    exact DelResult.noConfusion (congrArg Prod.fst h)
  | some b0 =>
    rw [hf] at h
    cases hb : deleteBranchBody failAt bid ⟨st.db, st.blobs, [], 0⟩ with
    | error tx =>
      rw [hb] at h
      exact DelResult.noConfusion (congrArg Prod.fst h)
    | ok tx =>
      rw [hb] at h
      simp only [Prod.mk.injEq] at h
      obtain ⟨-, hst', htr⟩ := h
      simp only [deleteBranchBody] at hb
      obtain ⟨tx2, h2, h'⟩ := except_bind_ok _ _ _ hb
      obtain ⟨tx3, h3, h4⟩ := except_bind_ok _ _ _ h'
      obtain ⟨h2notes, h2regs, h2br, h2subj, h2fac, h2blobs, h2tr⟩ :=
        noteDeleteMany_ok _ _ _ _ h2
      rw [delBlobs_sess] at h2notes h2regs h2br h2subj h2fac
      rw [delBlobs_trace, delBlobs_sess] at h2tr
      dsimp only at h2notes h2regs h2br h2subj h2fac h2tr
      obtain ⟨h3subj, h3regs, h3br, h3notes, h3fac, h3blobs, h3tr⟩ :=
        subjectDeleteMany_ok _ _ _ _ h3
      obtain ⟨h4br, h4regs, h4subj, h4notes, h4fac, h4blobs, h4tr⟩ :=
        branchDeleteById_ok _ _ _ _ h4
      have hdb' : st'.db = tx.sess := by rw [← hst']
      refine ⟨?_, ?_, ?_, ?_, ?_, ?_⟩
      · rw [hdb', h4notes, h3notes, h2notes]
      · rw [hdb', h4subj, h3subj, h2subj]
      · rw [hdb', h4br, h3br, h2br]
      · rw [hdb', h4regs, h3regs, h2regs]
      · rw [hdb', h4fac, h3fac, h2fac]
      · rw [← htr, h4tr, h3tr, h2tr, h2subj]
        simp only [List.nil_append, List.map_map, List.append_assoc, List.cons_append,
          List.singleton_append]
        rfl

theorem deleteSubject_ok_char (st : St) (sid : OID) (failAt : Option Nat) (st' : St)
    (tr : List Ev) (h : deleteSubject failAt sid st = (DelResult.ok, st', tr)) :
    st'.db.notes = st.db.notes.filter (fun n => !(n.subject == sid)) ∧
    st'.db.subjects = st.db.subjects.filter (fun s => !(s.id == sid)) ∧
    st'.db.branches = st.db.branches ∧
    st'.db.regulations = st.db.regulations ∧
    st'.db.faculties = st.db.faculties ∧
    tr = ((st.db.notes.filter (fun n => n.subject == sid)).map
            (fun n => Ev.blobDel n.fileKey)) ++
         ((st.db.notes.filter (fun n => n.subject == sid)).map (fun n => Ev.delNote n.id)) ++
         [Ev.delSubject sid, Ev.commit] := by
  unfold deleteSubject at h
  cases hf : st.db.subjects.find? (fun s => s.id == sid) with
  | none =>
    rw [hf] at h
    exact DelResult.noConfusion (congrArg Prod.fst h)
  | some s0 =>
    rw [hf] at h
    cases hb : deleteSubjectBody failAt sid ⟨st.db, st.blobs, [], 0⟩ with
    | error tx =>
      rw [hb] at h
      exact DelResult.noConfusion (congrArg Prod.fst h)
    | ok tx =>
      rw [hb] at h
      simp only [Prod.mk.injEq] at h
      obtain ⟨-, hst', htr⟩ := h
      simp only [deleteSubjectBody] at hb
      obtain ⟨tx2, h2, h3⟩ := except_bind_ok _ _ _ hb
      obtain ⟨h2notes, h2regs, h2br, h2subj, h2fac, h2blobs, h2tr⟩ :=
        noteDeleteMany_ok _ _ _ _ h2
      rw [delBlobs_sess] at h2notes h2regs h2br h2subj h2fac
      rw [delBlobs_trace, delBlobs_sess] at h2tr
      dsimp only at h2notes h2regs h2br h2subj h2fac h2tr
      obtain ⟨h3subj, h3regs, h3br, h3notes, h3fac, h3blobs, h3tr⟩ :=
        subjectDeleteById_ok _ _ _ _ h3
      have hdb' : st'.db = tx.sess := by rw [← hst']
      refine ⟨?_, ?_, ?_, ?_, ?_, ?_⟩
      · rw [hdb', h3notes, h2notes]
      · rw [hdb', h3subj, h2subj]
      · rw [hdb', h3br, h2br]
      · rw [hdb', h3regs, h2regs]
      · rw [hdb', h3fac, h2fac]
      · rw [← htr, h3tr, h2tr]
        simp only [List.nil_append, List.map_map, List.append_assoc, List.cons_append,
          List.singleton_append]
        rfl

theorem noteUnder_imp_reg (db : DB) (rid : OID) (n : Note) (hn : n ∈ db.notes)
    (hc : consistentDB db) (hu : noteUnderRegB db rid n = true) : n.regulation = rid := by
  unfold noteUnderRegB at hu
  simp only [Bool.or_eq_true, List.any_eq_true, Bool.and_eq_true, beq_iff_eq] at hu
  rcases hu with (h1 | h2) | h3
  · exact h1
  · obtain ⟨b, hb, hbreg, hnb⟩ := h2
    exact (hc.2 n hn b hb hnb).trans hbreg
  · obtain ⟨s, hs, hns, b, hb, hbreg, hsb⟩ := h3
    exact (hc.2 n hn b hb ((hc.1 n hn s hs hns).trans hsb)).trans hbreg

theorem noteUnderBranch_imp (db : DB) (bid : OID) (n : Note) (hn : n ∈ db.notes)
    (hc : consistentDB db) (hu : noteUnderBranchB db bid n = true) : n.branch = bid := by
  unfold noteUnderBranchB at hu
  simp only [Bool.or_eq_true, List.any_eq_true, Bool.and_eq_true, beq_iff_eq] at hu
  rcases hu with h1 | h2
  · exact h1
  · obtain ⟨s, hs, hsb, hns⟩ := h2
    exact (hc.1 n hn s hs hns).trans hsb

/-- C3: under the internal-consistency precondition of the data model, a
successful regulation cascade leaves no branch, subject, or note referencing
the regulation directly or transitively in the metadata store, and a blob
deletion was attempted (occurs in the trace) for the fileKey of every such
note. -/
theorem c3_cascade_complete (st : St) (rid : OID) (failAt : Option Nat) (st' : St)
    (tr : List Ev) (hc : consistentDB st.db)
    (h : deleteRegulation failAt rid st = (DelResult.ok, st', tr)) :
    (∀ b ∈ st'.db.branches, b.regulation ≠ rid) ∧
    (∀ s ∈ st'.db.subjects, subjUnderRegB st.db rid s = false) ∧
    (∀ n ∈ st'.db.notes, noteUnderRegB st.db rid n = false) ∧
    (∀ n ∈ st.db.notes, noteUnderRegB st.db rid n = true → Ev.blobDel n.fileKey ∈ tr) := by
  obtain ⟨hN, hB, hR, hF, hSub, hAbs, sids, hTr, hCov⟩ :=
    deleteRegulation_ok_char st rid failAt hc st' tr h
  refine ⟨?_, ?_, ?_, ?_⟩
  · intro b hb
    rw [hB] at hb
    have hp := (List.mem_filter.mp hb).2
    simp only [Bool.not_eq_true', beq_eq_false_iff_ne, ne_eq] at hp
    exact hp
  · intro s hs
    rw [Bool.eq_false_iff]
    intro hcontra
    obtain ⟨b, hbmem, hbp⟩ := List.any_eq_true.mp hcontra
    simp only [Bool.and_eq_true, beq_iff_eq] at hbp
    exact hAbs s hs b hbmem hbp.1 hbp.2
  · intro n hn
    rw [hN] at hn
    obtain ⟨hn0, hnp⟩ := List.mem_filter.mp hn
    simp only [Bool.not_eq_true', beq_eq_false_iff_ne, ne_eq] at hnp
    rw [Bool.eq_false_iff]
    intro hcontra
    exact hnp (noteUnder_imp_reg st.db rid n hn0 hc hcontra)
  · intro n hn hu
    have hreg : n.regulation = rid := noteUnder_imp_reg st.db rid n hn hc hu
    have hmem : n ∈ st.db.notes.filter (fun n => n.regulation == rid) :=
      List.mem_filter.mpr ⟨hn, by rw [hreg]; exact beq_self_eq_true rid⟩
    rw [hTr]
    apply List.mem_append_left
    apply List.mem_append_left
    apply List.mem_append_left
    apply List.mem_append_left
    exact List.mem_map_of_mem _ hmem

theorem c3_witness :
    Ev.blobDel "k1" ∈ (deleteRegulation none 1 exSt).2.2 :=
  (c3_cascade_complete exSt 1 none (deleteRegulation none 1 exSt).2.1
    (deleteRegulation none 1 exSt).2.2 (by unfold consistentDB; decide) (by decide)).2.2.2 exNote
    (by decide) (by decide)

theorem phasesOkAux_mono : ∀ (ys : List Ev) (p q : Nat), p ≤ q →
    phasesOkAux q ys = true → phasesOkAux p ys = true := by
  intro ys
  induction ys with
  | nil => intro p q _ _; rfl
  | cons e tr ih =>
    intro p q hpq h
    cases he : phaseOf e with
    | none =>
      simp only [phasesOkAux, he] at h ⊢
      exact ih p q hpq h
    | some r =>
      simp only [phasesOkAux, he, Bool.and_eq_true, decide_eq_true_eq] at h ⊢
      exact ⟨le_trans hpq h.1, h.2⟩

theorem phasesOkAux_append_const (q : Nat) :
    ∀ (evs : List Ev), (∀ e ∈ evs, phaseOf e = some q) →
    ∀ (p : Nat) (ys : List Ev), p ≤ q → phasesOkAux q ys = true →
    phasesOkAux p (evs ++ ys) = true := by
  intro evs
  induction evs with
  | nil =>
    intro _ p ys hpq h
    exact phasesOkAux_mono ys p q hpq h
  | cons e tr ih =>
    intro hall p ys hpq h
    have he := hall e (List.mem_cons_self e tr)
    simp only [List.cons_append, phasesOkAux, he, Bool.and_eq_true, decide_eq_true_eq]
    exact ⟨hpq, ih (fun x hx => hall x (List.mem_cons_of_mem _ hx)) q ys (le_refl q) h⟩

theorem phasesOkAux_append_none :
    ∀ (evs : List Ev), (∀ e ∈ evs, phaseOf e = none) →
    ∀ (p : Nat) (ys : List Ev), phasesOkAux p (evs ++ ys) = phasesOkAux p ys := by
  intro evs
  induction evs with
  | nil => intro _ p ys; rfl
  | cons e tr ih =>
    intro hall p ys
    have he := hall e (List.mem_cons_self e tr)
    simp only [List.cons_append, phasesOkAux, he]
    exact ih (fun x hx => hall x (List.mem_cons_of_mem _ hx)) p ys

theorem ordScan_blob_append (ks : List String) :
    ∀ (ys : List Ev) (ns ss : List OID),
    ordScan (ks.map Ev.blobDel ++ ys) ns ss = ordScan ys ns ss := by
  induction ks with
  | nil => intro ys ns ss; rfl
  | cons k ks ih =>
    intro ys ns ss
    simp only [List.map_cons, List.cons_append, ordScan]
    exact ih ys ns ss

theorem ordScan_note_append (ms : List OID) :
    ∀ (ys : List Ev) (ns ss : List OID),
    ordScan (ms.map Ev.delNote ++ ys) ns ss =
      ordScan ys (ms.foldl (fun r i => r.filter (fun j => j != i)) ns) ss := by
  induction ms with
  | nil => intro ys ns ss; rfl
  | cons m ms ih =>
    intro ys ns ss
    simp only [List.map_cons, List.cons_append, ordScan, List.foldl_cons]
    exact ih ys _ ss

theorem ordScan_subject_append (ms : List OID) :
    ∀ (ys : List Ev) (ss : List OID),
    ordScan (ms.map Ev.delSubject ++ ys) [] ss =
      ordScan ys [] (ms.foldl (fun r i => r.filter (fun j => j != i)) ss) := by
  induction ms with
  | nil => intro ys ss; rfl
  | cons m ms ih =>
    intro ys ss
    simp only [List.map_cons, List.cons_append, ordScan, List.isEmpty_nil, Bool.true_and,
      List.foldl_cons]
    exact ih ys _

theorem ordScan_branch_append (ms : List OID) :
    ∀ (ys : List Ev), ordScan (ms.map Ev.delBranch ++ ys) [] [] = ordScan ys [] [] := by
  induction ms with
  | nil => intro ys; rfl
  | cons m ms ih =>
    intro ys
    simp only [List.map_cons, List.cons_append, ordScan, List.isEmpty_nil, Bool.true_and]
    exact ih ys

theorem foldl_filter_nil : ∀ (ms ns : List OID), (∀ i ∈ ns, i ∈ ms) →
    ms.foldl (fun r i => r.filter (fun j => j != i)) ns = [] := by
  intro ms
  induction ms with
  | nil =>
    intro ns h
    cases ns with
    | nil => rfl
    | cons a t => exact absurd (h a (List.mem_cons_self a t)) (by simp)
  | cons m ms ih =>
    intro ns h
    simp only [List.foldl_cons]
    apply ih
    intro i hi
    obtain ⟨hi0, hine⟩ := List.mem_filter.mp hi
    rcases List.mem_cons.mp (h i hi0) with rfl | h2
    · simp at hine
    · exact h2

/-- C4: the claimed strict notes-subjects-branches-root deletion order fails
on the code: on the concrete (reference-inconsistent) store cex4St, the
successful regulation cascade deletes subject 4 while descendant note 6 of
the cascade still remains. -/
theorem c4_order_cex : c4RegOk none 1 cex4St = false := by decide

/-- C4 (amended): with the internal-consistency precondition of the data
model added as a hypothesis, every successful cascade delete performs its
metadata deletions in the strict order notes, then subjects, then branches,
then the root, and never deletes a subject (resp. branch) while a descendant
note (resp. note or subject) of the cascade remains. -/
theorem c4_order_amended (st : St) (rid : OID) (failAt : Option Nat)
    (hc : consistentDB st.db) :
    c4RegOk failAt rid st = true ∧ c4BranchOk failAt rid st = true ∧
    c4SubjOk failAt rid st = true := by
  refine ⟨?_, ?_, ?_⟩
  · rcases hrun : deleteRegulation failAt rid st with ⟨res, st', tr⟩
    unfold c4RegOk
    rw [hrun]
    cases res with
    | notFound => rfl
    | storageError => rfl
    | ok =>
      show (phasesOk tr &&
        ordScan tr (regDescNoteIds st.db rid) (regDescSubjectIds st.db rid)) = true
      obtain ⟨-, -, -, -, -, -, sids, hTr, hCov⟩ :=
        deleteRegulation_ok_char st rid failAt hc st' tr hrun
      have hA : (st.db.notes.filter (fun n => n.regulation == rid)).map
          (fun n => Ev.blobDel n.fileKey) =
          ((st.db.notes.filter (fun n => n.regulation == rid)).map
            (fun n => n.fileKey)).map Ev.blobDel := by
        rw [List.map_map]
        rfl
      have hB : (st.db.notes.filter (fun n => n.regulation == rid)).map
          (fun n => Ev.delNote n.id) =
          ((st.db.notes.filter (fun n => n.regulation == rid)).map
            (fun n => n.id)).map Ev.delNote := by
        rw [List.map_map]
        rfl
      have hD : (st.db.branches.filter (fun b => b.regulation == rid)).map
          (fun b => Ev.delBranch b.id) =
          ((st.db.branches.filter (fun b => b.regulation == rid)).map
            (fun b => b.id)).map Ev.delBranch := by
        rw [List.map_map]
        rfl
      have hAnone : ∀ e ∈ ((st.db.notes.filter (fun n => n.regulation == rid)).map
          (fun n => n.fileKey)).map Ev.blobDel, phaseOf e = none := by
        intro e he
        obtain ⟨k, -, rfl⟩ := List.mem_map.mp he
        rfl
      have hBnote : ∀ e ∈ ((st.db.notes.filter (fun n => n.regulation == rid)).map
          (fun n => n.id)).map Ev.delNote, phaseOf e = some 1 := by
        intro e he
        obtain ⟨k, -, rfl⟩ := List.mem_map.mp he
        rfl
      have hCsub : ∀ e ∈ sids.map Ev.delSubject, phaseOf e = some 2 := by
        intro e he
        obtain ⟨k, -, rfl⟩ := List.mem_map.mp he
        rfl
      have hDbr : ∀ e ∈ ((st.db.branches.filter (fun b => b.regulation == rid)).map
          (fun b => b.id)).map Ev.delBranch, phaseOf e = some 3 := by
        intro e he
        obtain ⟨k, -, rfl⟩ := List.mem_map.mp he
        rfl
      have hcovN : ∀ i ∈ regDescNoteIds st.db rid,
          i ∈ (st.db.notes.filter (fun n => n.regulation == rid)).map (fun n => n.id) := by
        intro i hi
        unfold regDescNoteIds at hi
        obtain ⟨n, hn, rfl⟩ := List.mem_map.mp hi
        obtain ⟨hn0, hnp⟩ := List.mem_filter.mp hn
        have hreg := noteUnder_imp_reg st.db rid n hn0 hc hnp
        exact List.mem_map_of_mem _
          (List.mem_filter.mpr ⟨hn0, by rw [hreg]; exact beq_self_eq_true rid⟩)
      have hcovS : ∀ i ∈ regDescSubjectIds st.db rid, i ∈ sids := by
        intro i hi
        unfold regDescSubjectIds at hi
        obtain ⟨s, hs, rfl⟩ := List.mem_map.mp hi
        obtain ⟨hs0, hsp⟩ := List.mem_filter.mp hs
        unfold subjUnderRegB at hsp
        obtain ⟨b, hb, hbp⟩ := List.any_eq_true.mp hsp
        simp only [Bool.and_eq_true, beq_iff_eq] at hbp
        exact hCov s hs0 ⟨b, hb, hbp.1, hbp.2⟩
      rw [hTr, hA, hB, hD, Bool.and_eq_true]
      constructor
      · unfold phasesOk
        simp only [List.append_assoc]
        rw [phasesOkAux_append_none _ hAnone 0 _]
        refine phasesOkAux_append_const 1 _ hBnote 0 _ (by decide) ?_
        refine phasesOkAux_append_const 2 _ hCsub 1 _ (by decide) ?_
        refine phasesOkAux_append_const 3 _ hDbr 2 _ (by decide) ?_
        rfl
      · simp only [List.append_assoc]
        rw [ordScan_blob_append, ordScan_note_append, foldl_filter_nil _ _ hcovN,
          ordScan_subject_append, foldl_filter_nil _ _ hcovS, ordScan_branch_append]
        rfl
  · rcases hrun : deleteBranch failAt rid st with ⟨res, st', tr⟩
    unfold c4BranchOk
    rw [hrun]
    cases res with
    | notFound => rfl
    | storageError => rfl
    | ok =>
      show (phasesOk tr &&
        ordScan tr (branchDescNoteIds st.db rid) (branchDescSubjectIds st.db rid)) = true
      obtain ⟨-, -, -, -, -, hTr⟩ := deleteBranch_ok_char st rid failAt st' tr hrun
      have hA : (st.db.notes.filter (fun n => n.branch == rid)).map
          (fun n => Ev.blobDel n.fileKey) =
          ((st.db.notes.filter (fun n => n.branch == rid)).map
            (fun n => n.fileKey)).map Ev.blobDel := by
        rw [List.map_map]
        rfl
      have hB : (st.db.notes.filter (fun n => n.branch == rid)).map
          (fun n => Ev.delNote n.id) =
          ((st.db.notes.filter (fun n => n.branch == rid)).map
            (fun n => n.id)).map Ev.delNote := by
        rw [List.map_map]
        rfl
      have hC : (st.db.subjects.filter (fun s => s.branch == rid)).map
          (fun s => Ev.delSubject s.id) =
          ((st.db.subjects.filter (fun s => s.branch == rid)).map
            (fun s => s.id)).map Ev.delSubject := by
        rw [List.map_map]
        rfl
      have hAnone : ∀ e ∈ ((st.db.notes.filter (fun n => n.branch == rid)).map
          (fun n => n.fileKey)).map Ev.blobDel, phaseOf e = none := by
        intro e he
        obtain ⟨k, -, rfl⟩ := List.mem_map.mp he
        rfl
      have hBnote : ∀ e ∈ ((st.db.notes.filter (fun n => n.branch == rid)).map
          (fun n => n.id)).map Ev.delNote, phaseOf e = some 1 := by
        intro e he
        obtain ⟨k, -, rfl⟩ := List.mem_map.mp he
        rfl
      have hCsub : ∀ e ∈ ((st.db.subjects.filter (fun s => s.branch == rid)).map
          (fun s => s.id)).map Ev.delSubject, phaseOf e = some 2 := by
        intro e he
        obtain ⟨k, -, rfl⟩ := List.mem_map.mp he
        rfl
      have hcovN : ∀ i ∈ branchDescNoteIds st.db rid,
          i ∈ (st.db.notes.filter (fun n => n.branch == rid)).map (fun n => n.id) := by
        intro i hi
        unfold branchDescNoteIds at hi
        obtain ⟨n, hn, rfl⟩ := List.mem_map.mp hi
        obtain ⟨hn0, hnp⟩ := List.mem_filter.mp hn
        have hbr := noteUnderBranch_imp st.db rid n hn0 hc hnp
        exact List.mem_map_of_mem _
          (List.mem_filter.mpr ⟨hn0, by rw [hbr]; exact beq_self_eq_true rid⟩)
      have hcovS : ∀ i ∈ branchDescSubjectIds st.db rid,
          i ∈ (st.db.subjects.filter (fun s => s.branch == rid)).map (fun s => s.id) := by
        intro i hi
        unfold branchDescSubjectIds at hi
        exact hi
      rw [hTr, hA, hB, hC, Bool.and_eq_true]
      constructor
      · unfold phasesOk
        simp only [List.append_assoc]
        rw [phasesOkAux_append_none _ hAnone 0 _]
        refine phasesOkAux_append_const 1 _ hBnote 0 _ (by decide) ?_
        refine phasesOkAux_append_const 2 _ hCsub 1 _ (by decide) ?_
        rfl
      · simp only [List.append_assoc]
        rw [ordScan_blob_append, ordScan_note_append, foldl_filter_nil _ _ hcovN,
          ordScan_subject_append, foldl_filter_nil _ _ hcovS]
        rfl
  · rcases hrun : deleteSubject failAt rid st with ⟨res, st', tr⟩
    unfold c4SubjOk
    rw [hrun]
    cases res with
    | notFound => rfl
    | storageError => rfl
    | ok =>
      show (phasesOk tr && ordScan tr (subjDescNoteIds st.db rid) []) = true
      obtain ⟨-, -, -, -, -, hTr⟩ := deleteSubject_ok_char st rid failAt st' tr hrun
      have hA : (st.db.notes.filter (fun n => n.subject == rid)).map
          (fun n => Ev.blobDel n.fileKey) =
          ((st.db.notes.filter (fun n => n.subject == rid)).map
            (fun n => n.fileKey)).map Ev.blobDel := by
        rw [List.map_map]
        rfl
      have hB : (st.db.notes.filter (fun n => n.subject == rid)).map
          (fun n => Ev.delNote n.id) =
          ((st.db.notes.filter (fun n => n.subject == rid)).map
            (fun n => n.id)).map Ev.delNote := by
        rw [List.map_map]
        rfl
      have hAnone : ∀ e ∈ ((st.db.notes.filter (fun n => n.subject == rid)).map
          (fun n => n.fileKey)).map Ev.blobDel, phaseOf e = none := by
        intro e he
        obtain ⟨k, -, rfl⟩ := List.mem_map.mp he
        rfl
      have hBnote : ∀ e ∈ ((st.db.notes.filter (fun n => n.subject == rid)).map
          (fun n => n.id)).map Ev.delNote, phaseOf e = some 1 := by
        intro e he
        obtain ⟨k, -, rfl⟩ := List.mem_map.mp he
        rfl
      have hcovN : ∀ i ∈ subjDescNoteIds st.db rid,
          i ∈ (st.db.notes.filter (fun n => n.subject == rid)).map (fun n => n.id) := by
        intro i hi
        unfold subjDescNoteIds at hi
        exact hi
      rw [hTr, hA, hB, Bool.and_eq_true]
      constructor
      · unfold phasesOk
        simp only [List.append_assoc]
        rw [phasesOkAux_append_none _ hAnone 0 _]
        refine phasesOkAux_append_const 1 _ hBnote 0 _ (by decide) ?_
        rfl
      · simp only [List.append_assoc]
        rw [ordScan_blob_append, ordScan_note_append, foldl_filter_nil _ _ hcovN]
        rfl

theorem c4_witness :
    c4RegOk none 1 exSt = true ∧ c4BranchOk none 1 exSt = true ∧
    c4SubjOk none 1 exSt = true :=
  c4_order_amended exSt 1 none (by unfold consistentDB; decide)

theorem c10_witness : listFaculty exDbA = listFaculty exDbB :=
  (c10_password_noninterference exDbA exDbB (fun s => s) 0 0 0
    ⟨"", "", "", "", ""⟩ ⟨"", "", "", "", ""⟩
    (List.Forall₂.cons (by decide) List.Forall₂.nil)).1

end Kithab
